import Mathlib

/-!
# Cloud-Notes collaboration hub: a verification development

Shallow embedding of `backend/websocket/hub.go` (the per-note room registry,
the operation handler and the operation applier) together with the two
model rows it touches (`models.Note`, `models.Operation`).

Conventions of the embedding.

* A Go `string` / `[]byte` is a list of bytes (`GoString`); `len` is the
  number of bytes and slicing is by byte offset, as in Go.
* A Go `int` is a 64-bit two's complement integer.  Values are carried as
  `Int`; every arithmetic operation of the source is followed by `wrapInt`.
* A run-time panic (slice bounds, send on a closed channel, close of a closed
  channel) is an explicit outcome: `Except GoPanic` for pure code, the
  `crashed` field for the hub worker.
* `encoding/json` and the gorm database handle are external libraries: the
  JSON codec is a parameter, the database is a small store whose calls can
  fail as the environment dictates (`DBFaults`).
-/

namespace CloudNotes

/-! ## Go base types -/

/-- A Go string or byte slice: a sequence of bytes. -/
abbrev GoString := List UInt8

/-- The bytes of a string literal of the source (UTF-8). -/
def str (s : String) : GoString := s.toUTF8.data.toList

/-- Go `len` on a string, as an `int`. -/
def len (s : GoString) : Int := (s.length : Int)

/-- Run-time panics of the Go code that the embedding tracks. -/
inductive GoPanic where
  | sliceBounds
  | sendOnClosed
  | closeOfClosed
  deriving DecidableEq, Repr

deriving instance DecidableEq for Except

/-- Largest value of a Go `int` (64-bit). -/
def maxInt : Int := 2 ^ 63 - 1

/-- Smallest value of a Go `int` (64-bit). -/
def minInt : Int := -(2 ^ 63)

/-- Two's complement wrap-around of a mathematical integer into a Go `int`. -/
def wrapInt (x : Int) : Int := (x + 2 ^ 63) % 2 ^ 64 - 2 ^ 63

/-- Go `s[:hi]` on a string: panics unless `0 <= hi <= len(s)`. -/
def sliceTo (s : GoString) (hi : Int) : Except GoPanic GoString :=
  if 0 ≤ hi ∧ hi ≤ len s then .ok (s.take hi.toNat) else .error .sliceBounds

/-- Go `s[lo:]` on a string: panics unless `0 <= lo <= len(s)`. -/
def sliceFrom (s : GoString) (lo : Int) : Except GoPanic GoString :=
  if 0 ≤ lo ∧ lo ≤ len s then .ok (s.drop lo.toNat) else .error .sliceBounds

/-! ## Wire types (`hub.go`, lines 35-50) -/

/-- The struct `Operation` of `hub.go`: one edit.  The Go field `Type` is
spelled `Typ` (`Type` is reserved). -/
structure Operation where
  Typ : GoString
  Position : Int
  Content : GoString
  Length : Int
  deriving DecidableEq, Repr

/-- The struct `Message` of `hub.go`: the envelope.  The opaque `Data` field
is carried as its raw JSON bytes. -/
structure Message where
  Typ : GoString
  NoteID : GoString
  UserID : Nat
  Operation : Option Operation
  Content : GoString
  Version : Int
  Data : GoString
  deriving DecidableEq, Repr

/-! ## The operation applier (`hub.go`, lines 273-291) -/

/-- The function `applyOperation` of `hub.go`. -/
def applyOperation (content : GoString) (op : Operation) : Except GoPanic GoString :=
  if op.Typ = str "insert" then
    if op.Position > len content then
      .ok (content ++ op.Content)
    else do
      let a ← sliceTo content op.Position
      let b ← sliceFrom content op.Position
      .ok (a ++ op.Content ++ b)
  else if op.Typ = str "delete" then
    if op.Position ≥ len content then
      .ok content
    else do
      let end0 := wrapInt (op.Position + op.Length)
      let end1 := if end0 > len content then len content else end0
      let a ← sliceTo content op.Position
      let b ← sliceFrom content end1
      .ok (a ++ b)
  else
    .ok content

/-! ## Database rows and the store (`models/note.go`, `models/collaboration.go`) -/

/-- Model of the library call `strconv.ParseUint(s, 10, 32)`: a non-empty
string of decimal digits whose value fits 32 bits; anything else is an error. -/
def parseUint32 (s : GoString) : Option Nat :=
  if s = [] then none
  else if s.all (fun b => decide (48 ≤ b.toNat ∧ b.toNat ≤ 57)) then
    let n := s.foldl (fun acc b => acc * 10 + (b.toNat - 48)) 0
    if n ≤ 4294967295 then some n else none
  else none

/-- The columns of `models.Note` that the hub reads and writes.  The primary
key is the key of the table (`DB.notes`); the other columns are written back
as they were loaded. -/
structure Note where
  Content : GoString
  Version : Int
  deriving DecidableEq, Repr

/-- A row of `models.Operation` (the audit log), without the generated `ID`
and `CreatedAt`. -/
structure OperationRow where
  NoteID : Nat
  UserID : Nat
  Typ : GoString
  Position : Int
  Content : GoString
  Length : Int
  Version : Int
  deriving DecidableEq, Repr

/-- The database behind `config.DB`: the live rows of table `notes` by primary
key, and table `operations` in insertion order. -/
structure DB where
  notes : Nat → Option Note
  operations : List OperationRow

/-- What the environment makes of the three database calls of one
`handleOperation`: `true` means the call returns an error. -/
structure DBFaults where
  create : Bool
  first : Bool
  save : Bool
  deriving DecidableEq, Repr

/-- No database call fails. -/
def noFaults : DBFaults := { create := false, first := false, save := false }

/-! ## Clients and the hub state (`hub.go`, lines 20-33, 52-59) -/

/-- The struct `Client` of `hub.go`.  `ptr` stands for the address of the
struct (the map key `*Client`); `noteID` and `userID` never change after
`HandleWebSocket` built the struct.  The channel `send` lives in
`HubState.send`. -/
structure Client where
  ptr : Nat
  noteID : GoString
  userID : Nat
  deriving DecidableEq, Repr

/-- A buffered Go channel of byte slices: the buffered items, oldest first,
and whether it has been closed. -/
structure Chan where
  buf : List GoString
  closed : Bool
  deriving DecidableEq, Repr

/-- Capacity of every `send` channel: `make(chan []byte, 256)` in
`HandleWebSocket`. -/
def sendCap : Nat := 256

/-- The state the hub worker acts on: the room map `h.clients`, the state of
every client's `send` channel, and whether the process has died of a panic
(after which no step does anything). -/
structure HubState where
  clients : GoString → Option (List Client)
  send : Client → Chan
  panicked : Option GoPanic

/-- The function `NewHub` of `hub.go`: no room; every channel is as
`HandleWebSocket` makes it (open and empty). -/
def NewHub : HubState :=
  { clients := fun _ => none
    send := fun _ => { buf := [], closed := false }
    panicked := none }

/-- Go `delete(clients, client)` on a room. -/
def deleteClient (room : List Client) (c : Client) : List Client :=
  room.filter (fun x => decide (x ≠ c))

/-- Go `clients[client] = true` on a room. -/
def insertClient (room : List Client) (c : Client) : List Client :=
  if c ∈ room then room else room ++ [c]

/-- The `register` case of `Hub.Run` (lines 64-69).  The snapshot goroutine it
starts is a step of its own. -/
def register (s : HubState) (c : Client) : HubState :=
  if s.panicked.isSome then s
  else
    let room := match s.clients c.noteID with
      | none => []
      | some r => r
    { s with clients := Function.update s.clients c.noteID (some (insertClient room c)) }

/-- The `unregister` case of `Hub.Run` (lines 74-84). -/
def unregister (s : HubState) (c : Client) : HubState :=
  if s.panicked.isSome then s
  else
    match s.clients c.noteID with
    | none => s
    | some room =>
      if c ∈ room then
        let room1 := deleteClient room c
        let s1 := { s with clients := Function.update s.clients c.noteID (some room1) }
        if (s1.send c).closed then
          { s1 with panicked := some .closeOfClosed }
        else
          let s2 := { s1 with send := Function.update s1.send c { (s1.send c) with closed := true } }
          if room1.length = 0 then
            { s2 with clients := Function.update s2.clients c.noteID none }
          else s2
      else s

/-- One turn of the loop `for client := range clients` of the `broadcast`
case (lines 95-102): a non-blocking send, and on a full buffer close and
delete. -/
def deliver (noteID : GoString) (message : GoString) (s : HubState) (c : Client) : HubState :=
  if s.panicked.isSome then s
  else if (s.send c).closed then
    { s with panicked := some .sendOnClosed }
  else if (s.send c).buf.length < sendCap then
    { s with send := Function.update s.send c { (s.send c) with buf := (s.send c).buf ++ [message] } }
  else
    { s with
      send := Function.update s.send c { (s.send c) with closed := true }
      clients := Function.update s.clients noteID
        ((s.clients noteID).map (fun room => deleteClient room c)) }

/-- The `broadcast` case of `Hub.Run` (lines 86-103).  The members are
visited in the order the room lists them. -/
def broadcast (unmarshal : GoString → Option Message) (s : HubState) (message : GoString) :
    HubState :=
  if s.panicked.isSome then s
  else
    match unmarshal message with
    | none => s
    | some msg =>
      match s.clients msg.NoteID with
      | none => s
      | some room => room.foldl (deliver msg.NoteID message) s

/-- The function `Hub.sendCurrentContent` of `hub.go` (lines 108-136), run in
a goroutine of its own: read the note, build the `sync` envelope, and send it
without blocking; on a full buffer `close(client.send)`.  `firstFault` says
whether `config.DB.First` errs. -/
def sendCurrentContent (marshal : Message → Option GoString) (db : DB) (firstFault : Bool)
    (s : HubState) (client : Client) : HubState :=
  if s.panicked.isSome then s
  else
    match parseUint32 client.noteID with
    | none => s
    | some noteID =>
      match (if firstFault then none else db.notes noteID) with
      | none => s
      | some note =>
        let message : Message :=
          { Typ := str "sync"
            NoteID := client.noteID
            UserID := 0
            Operation := none
            Content := note.Content
            Version := note.Version
            Data := [] }
        match marshal message with
        | none => s
        | some data =>
          if (s.send client).closed then
            { s with panicked := some .sendOnClosed }
          else if (s.send client).buf.length < sendCap then
            { s with
              send := Function.update s.send client
                ({ (s.send client) with buf := (s.send client).buf ++ [data] }) }
          else
            { s with
              send := Function.update s.send client ({ (s.send client) with closed := true }) }

/-- A request received by the hub worker. -/
inductive HubEvent where
  | register (c : Client)
  | unregister (c : Client)
  | broadcast (message : GoString)
  deriving DecidableEq, Repr

/-- One turn of the `select` loop of `Hub.Run`. -/
def hubStep (unmarshal : GoString → Option Message) (s : HubState) : HubEvent → HubState
  | .register c => register s c
  | .unregister c => unregister s c
  | .broadcast message => broadcast unmarshal s message

/-- The hub worker on a sequence of requests. -/
def hubRun (unmarshal : GoString → Option Message) (s : HubState) (es : List HubEvent) :
    HubState :=
  es.foldl (hubStep unmarshal) s

/-- What happens around the hub: a request taken by the worker, or the
snapshot goroutine of a registered client doing its send. -/
inductive SysEvent where
  | hub (e : HubEvent)
  | snapshot (c : Client) (firstFault : Bool)
  deriving DecidableEq, Repr

/-- One such event, over a database that stays as it is. -/
def sysStep (unmarshal : GoString → Option Message) (marshal : Message → Option GoString)
    (db : DB) (s : HubState) : SysEvent → HubState
  | .hub e => hubStep unmarshal s e
  | .snapshot c firstFault => sendCurrentContent marshal db firstFault s c

/-- A sequence of such events. -/
def sysRun (unmarshal : GoString → Option Message) (marshal : Message → Option GoString)
    (db : DB) (s : HubState) (es : List SysEvent) : HubState :=
  es.foldl (sysStep unmarshal marshal db) s

/-- Whether `c` is a member of the room of `noteID`. -/
def inRoom (s : HubState) (noteID : GoString) (c : Client) : Prop :=
  ∃ room, s.clients noteID = some room ∧ c ∈ room

/-! ## The operation handler (`hub.go`, lines 222-271) -/

/-- What one call of `handleOperation` did: the database it leaves, the bytes
it handed to `c.hub.broadcast` (if any), the audit row it inserted (if any),
the key of the note it saved (if any), and the panic that ended it (if any). -/
structure HandleResult where
  db : DB
  broadcast : Option GoString
  logged : Option OperationRow
  saved : Option Nat
  panic : Option GoPanic

/-- The method `Client.handleOperation` of `hub.go`. -/
def handleOperation (marshal : Message → Option GoString) (db : DB) (c : Client)
    (msg : Message) (f : DBFaults) : HandleResult :=
  match msg.Operation with
  | none => { db := db, broadcast := none, logged := none, saved := none, panic := none }
  | some op =>
    match parseUint32 c.noteID with
    | none => { db := db, broadcast := none, logged := none, saved := none, panic := none }
    | some noteID =>
      let operation : OperationRow :=
        { NoteID := noteID
          UserID := c.userID
          Typ := op.Typ
          Position := op.Position
          Content := op.Content
          Length := op.Length
          Version := msg.Version }
      if f.create then
        { db := db, broadcast := none, logged := none, saved := none, panic := none }
      else
        let db1 : DB := { db with operations := db.operations ++ [operation] }
        match (if f.first then none else db1.notes noteID) with
        | none =>
          { db := db1, broadcast := none, logged := some operation, saved := none, panic := none }
        | some note =>
          match applyOperation note.Content op with
          | .error p =>
            { db := db1, broadcast := none, logged := some operation, saved := none,
              panic := some p }
          | .ok newContent =>
            let note1 : Note := { Content := newContent, Version := wrapInt (note.Version + 1) }
            if f.save then
              { db := db1, broadcast := none, logged := some operation, saved := none,
                panic := none }
            else
              let db2 : DB := { db1 with notes := Function.update db1.notes noteID (some note1) }
              { db := db2
                broadcast := marshal { msg with Version := note1.Version }
                logged := some operation
                saved := some noteID
                panic := none }

/-- One operation envelope as it reaches `handleOperation`, with what the
database does during the call. -/
structure Request where
  client : Client
  msg : Message
  faults : DBFaults

/-- Calls of `handleOperation` one after another (no interleaving).  A panic
ends the process, so nothing after it is handled. -/
def handleAll (marshal : Message → Option GoString) (db : DB) :
    List Request → DB × List HandleResult
  | [] => (db, [])
  | r :: rs =>
    let h := handleOperation marshal db r.client r.msg r.faults
    match h.panic with
    | some _ => (h.db, [h])
    | none => ((handleAll marshal h.db rs).1, h :: (handleAll marshal h.db rs).2)

/-- The database and the hub together. -/
structure System where
  db : DB
  hub : HubState

/-- The `case "operation"` of `Client.readPump` (lines 188-194) for one decoded
envelope: stamp it, call `handleOperation`, and let the hub worker take what
was sent on the unbuffered channel `hub.broadcast`. -/
def dispatchOperation (unmarshal : GoString → Option Message)
    (marshal : Message → Option GoString) (sys : System) (c : Client) (msg : Message)
    (f : DBFaults) : System :=
  if sys.hub.panicked.isSome then sys
  else
    let h := handleOperation marshal sys.db c { msg with UserID := c.userID, NoteID := c.noteID } f
    match h.panic with
    | some p => { db := h.db, hub := { sys.hub with panicked := some p } }
    | none =>
      match h.broadcast with
      | none => { db := h.db, hub := sys.hub }
      | some data => { db := h.db, hub := broadcast unmarshal sys.hub data }

/-! ## The hub with its goroutines (`hub.go`, lines 61-136 and 203-220) -/

/-- The hub together with the goroutines around it: the snapshot goroutines
that `go h.sendCurrentContent(client)` (line 72) has started and that have not
yet run, the text frames each client's `writePump` has written to its
connection (oldest first), and whether that `writePump` has returned. -/
structure World where
  hub : HubState
  spawned : List Client
  wire : Client → List GoString
  writerDone : Client → Bool

/-- One turn of the loop of `Client.writePump` (lines 206-218): receive from
`c.send` (blocking while it is open and empty) and write the frame;
`writeErr` says whether `WriteMessage` fails. -/
def writePump (w : World) (c : Client) (writeErr : Bool) : World :=
  if w.hub.panicked.isSome then w
  else if w.writerDone c then w
  else
    match (w.hub.send c).buf with
    | [] =>
      if (w.hub.send c).closed then
        { w with writerDone := Function.update w.writerDone c true }
      else w
    | message :: rest =>
      let hub1 : HubState :=
        { w.hub with
          send := Function.update w.hub.send c ({ (w.hub.send c) with buf := rest }) }
      if writeErr then
        { w with hub := hub1, writerDone := Function.update w.writerDone c true }
      else
        { w with hub := hub1, wire := Function.update w.wire c (w.wire c ++ [message]) }

/-- Every message a client has been sent so far, oldest first: the frames
already written to its connection, then the ones still queued. -/
def stream (w : World) (c : Client) : List GoString :=
  w.wire c ++ (w.hub.send c).buf

/-- What a non-blocking send of `message` followed, on a full buffer, by
`close` makes of an open channel. -/
def sendOrClose (message : GoString) (ch : Chan) : Chan :=
  if ch.buf.length < sendCap then { ch with buf := ch.buf ++ [message] }
  else { ch with closed := true }

/-- Whether a channel's buffer is full. -/
def isFull (ch : Chan) : Bool := decide (sendCap ≤ ch.buf.length)

/-- No room of the map is empty, in a hub that has not panicked. -/
def roomsNonEmpty (s : HubState) : Prop :=
  s.panicked = none → ∀ n room, s.clients n = some room → room ≠ []

/-- Every room lists distinct clients, each under its own note id. -/
def roomsKeyed (s : HubState) : Prop :=
  ∀ n room, s.clients n = some room → room.Nodup ∧ ∀ c ∈ room, c.noteID = n

/-- The `sync` envelope `sendCurrentContent` builds for a client and a note. -/
def syncMessage (client : Client) (note : Note) : Message :=
  { Typ := str "sync", NoteID := client.noteID, UserID := 0, Operation := none,
    Content := note.Content, Version := note.Version, Data := [] }

/-- The audit rows of note `d` in a list of rows. -/
def rowsOf (d : Nat) (rows : List OperationRow) : List OperationRow :=
  rows.filter (fun r => decide (r.NoteID = d))

/-- How many of the handled envelopes were applied to note `d` (saved). -/
def appliedCount (d : Nat) (hs : List HandleResult) : Nat :=
  (hs.filter (fun h => decide (h.saved = some d))).length

/-- The audit row a call of `handleOperation` inserts, read off its inputs
alone: the envelope carries an operation, the client's note id parses, and
`DB.Create` does not fail.  What the load, the applier and the save do
afterwards plays no part. -/
def auditRow (c : Client) (msg : Message) (f : DBFaults) : Option OperationRow :=
  match msg.Operation, parseUint32 c.noteID with
  | some op, some d =>
    if f.create then none
    else some ⟨d, c.userID, op.Typ, op.Position, op.Content, op.Length, msg.Version⟩
  | _, _ => none

/-- The audit row of a request. -/
def rowOf (r : Request) : Option OperationRow := auditRow r.client r.msg r.faults

/-- A request that inserts an audit row of note `d` and whose load or save
then fails. -/
def failedAfterInsert (d : Nat) (r : Request) : Bool :=
  match rowOf r with
  | some row => decide (row.NoteID = d) && (r.faults.first || r.faults.save)
  | none => false

/-- How many requests of a list fail after their insert, for note `d`. -/
def failedCount (d : Nat) (rs : List Request) : Nat :=
  (rs.filter (failedAfterInsert d)).length

/-! ## Concrete data for the examples -/

/-- The text `\x7b"type":"cursor","note_id":"1","user_id":7\x7d`. -/
def cursorBytes : GoString :=
  str "\x7b\"type\":\"cursor\",\"note_id\":\"1\",\"user_id\":7\x7d"

/-- The envelope `cursorBytes` decodes to. -/
def cursorMsg : Message :=
  { Typ := str "cursor", NoteID := str "1", UserID := 7, Operation := none, Content := [],
    Version := 0, Data := [] }

/-- The text `\x7b"type":"cursor","note_id":"2","user_id":9\x7d`. -/
def cursorBytes2 : GoString :=
  str "\x7b\"type\":\"cursor\",\"note_id\":\"2\",\"user_id\":9\x7d"

/-- The envelope `cursorBytes2` decodes to. -/
def cursorMsg2 : Message :=
  { Typ := str "cursor", NoteID := str "2", UserID := 9, Operation := none, Content := [],
    Version := 0, Data := [] }

/-- An operation envelope as a client sends it: insert `x` at 0, no version. -/
def insertMsg : Message :=
  { Typ := str "operation", NoteID := str "1", UserID := 7,
    Operation := some { Typ := str "insert", Position := 0, Content := str "x", Length := 0 },
    Content := [], Version := 0, Data := [] }

/-- The JSON text of `insertMsg` stamped with version 6. -/
def insertBytes : GoString :=
  str ("\x7b\"type\":\"operation\",\"note_id\":\"1\",\"user_id\":7,\"operation\":"
    ++ "\x7b\"type\":\"insert\",\"position\":0,\"content\":\"x\"\x7d,\"version\":6\x7d")

/-- The part of `json.Unmarshal` the examples use: the three texts above. -/
def exampleUnmarshal (raw : GoString) : Option Message :=
  if raw = cursorBytes then some cursorMsg
  else if raw = cursorBytes2 then some cursorMsg2
  else if raw = insertBytes then some { insertMsg with Version := 6 }
  else none

/-- The part of `json.Marshal` the examples use. -/
def exampleMarshal (m : Message) : Option GoString :=
  if m = cursorMsg then some cursorBytes
  else if m = cursorMsg2 then some cursorBytes2
  else if m = { insertMsg with Version := 6 } then some insertBytes
  else none

/-- A client of note `1`, user 7. -/
def alice : Client := { ptr := 1, noteID := str "1", userID := 7 }

/-- A second client of note `1`, user 8. -/
def bob : Client := { ptr := 2, noteID := str "1", userID := 8 }

/-- A client of note `2`, user 9. -/
def carol : Client := { ptr := 3, noteID := str "2", userID := 9 }

/-- A database with note 1 at content `abc`, version 5, and an empty log. -/
def exampleDB : DB :=
  { notes := fun k => if k = 1 then some { Content := str "abc", Version := 5 } else none
    operations := [] }

/-- The text `\x7b"type":"sync","note_id":"1","user_id":0,"content":"abc","version":5\x7d`. -/
def syncBytes : GoString :=
  str ("\x7b\"type\":\"sync\",\"note_id\":\"1\",\"user_id\":0,"
    ++ "\"content\":\"abc\",\"version\":5\x7d")

/-- The part of `json.Marshal` the snapshot examples use: the `sync` envelope
of note `1` in `exampleDB`, and what `exampleMarshal` knows. -/
def syncMarshal (m : Message) : Option GoString :=
  if m = syncMessage alice { Content := str "abc", Version := 5 } then some syncBytes
  else exampleMarshal m

/-- A hub with `alice` and `bob` in the room of note `1`, `carol` in the room
of note `2`, and every queue open and empty. -/
def exampleHub : HubState :=
  { clients := fun n =>
      if n = str "1" then some [alice, bob] else if n = str "2" then some [carol] else none
    send := fun _ => { buf := [], closed := false }
    panicked := none }

/-- A queue holding `sendCap` copies of `cursorBytes`: full, and open. -/
def fullChan : Chan := { buf := List.replicate sendCap cursorBytes, closed := false }

/-- The hub `exampleHub` with `alice`'s queue full. -/
def slowHub : HubState :=
  { exampleHub with send := fun c => if c = alice then fullChan else exampleHub.send c }

/-! # Theorems -/

/-! ## The operation applier -/

theorem len_nonneg (s : GoString) : 0 ≤ len s := by
  unfold len; exact Int.ofNat_nonneg _

/-- C1. For every content and every insert operation with position >= 0,
`applyOperation` returns `content + op.Content` when the position exceeds
`len(content)`, and `content[:position] + op.Content + content[position:]`
otherwise (no panic in either case). -/
theorem applyOperation_insert (content : GoString) (op : Operation)
    (hT : op.Typ = str "insert") (hp : 0 ≤ op.Position) :
    applyOperation content op =
      .ok (if op.Position > len content then content ++ op.Content
        else content.take op.Position.toNat ++ op.Content ++ content.drop op.Position.toNat) := by
  unfold applyOperation
  rw [if_pos hT]
  by_cases h : op.Position > len content
  · rw [if_pos h, if_pos h]
  · rw [if_neg h, if_neg h]
    have hle : op.Position ≤ len content := not_lt.mp h
    simp [sliceTo, sliceFrom, hp, hle, bind, Except.bind]

/-- Witness of C1, and its instance in the spec: inserting `X` at 10 into
`abc` gives `abcX`. -/
theorem applyOperation_insert_witness :
    ((Operation.mk (str "insert") 10 (str "X") 0).Typ = str "insert" ∧ (0 : Int) ≤ 10) ∧
    applyOperation (str "abc") (Operation.mk (str "insert") 10 (str "X") 0) =
      .ok (str "abcX") :=
  ⟨⟨by decide, by decide⟩,
    (applyOperation_insert (str "abc") (Operation.mk (str "insert") 10 (str "X") 0)
      (by decide) (by decide)).trans (by decide)⟩

/-- C2, at the failing input. Deleting from `abc` at position 1 with length
`9223372036854775807`: `op.Position + op.Length` wraps to the smallest `int`,
the clamp `end > len(content)` does not fire, and `content[end:]` panics. The
claim asks for `a`. -/
theorem applyOperation_delete_overflow :
    applyOperation (str "abc") (Operation.mk (str "delete") 1 [] 9223372036854775807) =
      .error .sliceBounds := by
  decide

/-- The delete branch when `op.Position + op.Length` does not overflow: no
change at or past the end, else `content[:position] + content[min(position +
length, len(content)):]`.  The two instances of the spec follow. -/
theorem applyOperation_delete_of_no_overflow (content : GoString) (op : Operation)
    (hT : op.Typ = str "delete") (hp : 0 ≤ op.Position) (hl : 0 ≤ op.Length)
    (hsum : op.Position + op.Length ≤ maxInt) :
    applyOperation content op =
      .ok (if op.Position ≥ len content then content
        else content.take op.Position.toNat ++
          content.drop (min (op.Position + op.Length) (len content)).toNat) := by
  have hne : ¬ op.Typ = str "insert" := by rw [hT]; decide
  have hw : wrapInt (op.Position + op.Length) = op.Position + op.Length := by
    unfold wrapInt
    unfold maxInt at hsum
    omega
  unfold applyOperation
  rw [if_neg hne, if_pos hT]
  by_cases h : op.Position ≥ len content
  · rw [if_pos h, if_pos h]
  · rw [if_neg h, if_neg h]
    have hlt : op.Position < len content := not_le.mp h
    have hlen := len_nonneg content
    rw [hw]
    by_cases he : op.Position + op.Length > len content
    · have hmin : min (op.Position + op.Length) (len content) = len content :=
        min_eq_right (le_of_lt he)
      simp [sliceTo, sliceFrom, hp, le_of_lt hlt, he, hmin, hlen, bind, Except.bind]
    · have hle : op.Position + op.Length ≤ len content := not_lt.mp he
      have hmin : min (op.Position + op.Length) (len content) = op.Position + op.Length :=
        min_eq_left hle
      have h0 : 0 ≤ op.Position + op.Length := by omega
      simp [sliceTo, sliceFrom, hp, le_of_lt hlt, he, hmin, hle, h0, bind, Except.bind]

theorem applyOperation_delete_clamp :
    applyOperation (str "abc") (Operation.mk (str "delete") 1 [] 10) = .ok (str "a") := by
  decide

theorem applyOperation_delete_past_end :
    applyOperation (str "abc") (Operation.mk (str "delete") 5 [] 2) = .ok (str "abc") := by
  decide


/-! ## The operation handler -/

/-- The two ways a call of `handleOperation` ends: nothing saved, nothing
broadcast and the notes as before (with or without a row added to the log);
or the edit applied, with the row, the saved note and the broadcast it gives. -/
theorem handleOperation_cases (marshal : Message → Option GoString) (db : DB) (c : Client)
    (msg : Message) (f : DBFaults) :
    ((handleOperation marshal db c msg f).saved = none ∧
      (handleOperation marshal db c msg f).db.notes = db.notes ∧
      (handleOperation marshal db c msg f).broadcast = none ∧
      (handleOperation marshal db c msg f).db.operations =
        db.operations ++ (handleOperation marshal db c msg f).logged.toList) ∨
    (∃ op d note newContent,
      msg.Operation = some op ∧ parseUint32 c.noteID = some d ∧
      f.create = false ∧ f.first = false ∧ f.save = false ∧
      db.notes d = some note ∧ applyOperation note.Content op = .ok newContent ∧
      (handleOperation marshal db c msg f).saved = some d ∧
      (handleOperation marshal db c msg f).panic = none ∧
      (handleOperation marshal db c msg f).logged =
        some ⟨d, c.userID, op.Typ, op.Position, op.Content, op.Length, msg.Version⟩ ∧
      (handleOperation marshal db c msg f).db.operations =
        db.operations ++ [⟨d, c.userID, op.Typ, op.Position, op.Content, op.Length, msg.Version⟩] ∧
      (handleOperation marshal db c msg f).db.notes =
        Function.update db.notes d (some ⟨newContent, wrapInt (note.Version + 1)⟩) ∧
      (handleOperation marshal db c msg f).broadcast =
        marshal { msg with Version := wrapInt (note.Version + 1) }) := by
  unfold handleOperation
  cases hop : msg.Operation with
  | none => left; simp
  | some op =>
    cases hd : parseUint32 c.noteID with
    | none => left; simp
    | some d =>
      cases hc : f.create with
      | true => left; simp
      | false =>
        cases hf : f.first with
        | true => left; simp
        | false =>
          cases hn : db.notes d with
          | none => left; simp [hn]
          | some note =>
            cases ha : applyOperation note.Content op with
            | error p => left; simp [hn, ha]
            | ok newContent =>
              cases hs : f.save with
              | true => left; simp [hn, ha]
              | false =>
                right
                exact ⟨op, d, note, newContent, rfl, rfl, rfl, rfl, rfl, hn, ha, by simp [hn, ha]⟩

theorem wrapInt_of_inRange (x : Int) (hlo : minInt ≤ x) (hhi : x ≤ maxInt) : wrapInt x = x := by
  unfold wrapInt
  unfold minInt at hlo
  unfold maxInt at hhi
  omega

theorem handleOperation_logged_noteID (marshal : Message → Option GoString) (db : DB)
    (c : Client) (msg : Message) (f : DBFaults) (d : Nat)
    (hs : (handleOperation marshal db c msg f).saved = some d) :
    ∃ row, (handleOperation marshal db c msg f).logged = some row ∧ row.NoteID = d := by
  rcases handleOperation_cases marshal db c msg f with hA | hB
  · rw [hA.1] at hs; cases hs
  · obtain ⟨op, d1, note, newContent, -, -, -, -, -, -, -, hsv, -, hlog, -, -, -⟩ := hB
    rw [hsv] at hs
    cases hs
    exact ⟨_, hlog, rfl⟩

theorem handleAll_cons_panic (marshal : Message → Option GoString) (db : DB) (r : Request)
    (rs : List Request) (p : GoPanic)
    (hp : (handleOperation marshal db r.client r.msg r.faults).panic = some p) :
    handleAll marshal db (r :: rs) =
      ((handleOperation marshal db r.client r.msg r.faults).db,
        [handleOperation marshal db r.client r.msg r.faults]) := by
  simp [handleAll, hp]

theorem handleAll_cons_ok (marshal : Message → Option GoString) (db : DB) (r : Request)
    (rs : List Request)
    (hp : (handleOperation marshal db r.client r.msg r.faults).panic = none) :
    handleAll marshal db (r :: rs) =
      ((handleAll marshal (handleOperation marshal db r.client r.msg r.faults).db rs).1,
        handleOperation marshal db r.client r.msg r.faults ::
          (handleAll marshal (handleOperation marshal db r.client r.msg r.faults).db rs).2) := by
  simp [handleAll, hp]

theorem appliedCount_cons (d : Nat) (h : HandleResult) (hs : List HandleResult) :
    appliedCount d (h :: hs) = (if h.saved = some d then 1 else 0) + appliedCount d hs := by
  unfold appliedCount
  by_cases hd : h.saved = some d
  · simp [List.filter_cons, hd]; omega
  · simp [List.filter_cons, hd]

theorem appliedCount_nil (d : Nat) : appliedCount d [] = 0 := rfl

/-- Every result of a run that saved note `d` carries an audit row of `d`. -/
theorem handleAll_coherent (marshal : Message → Option GoString) (rs : List Request) :
    ∀ db : DB, ∀ h ∈ (handleAll marshal db rs).2, ∀ d, h.saved = some d →
      ∃ row, h.logged = some row ∧ row.NoteID = d := by
  induction rs with
  | nil => intro db h hh; simp [handleAll] at hh
  | cons r rs ih =>
    intro db h hh d hs
    cases hp : (handleOperation marshal db r.client r.msg r.faults).panic with
    | some p =>
      rw [handleAll_cons_panic marshal db r rs p hp] at hh
      simp at hh
      subst hh
      exact handleOperation_logged_noteID marshal db r.client r.msg r.faults d hs
    | none =>
      rw [handleAll_cons_ok marshal db r rs hp] at hh
      simp at hh
      rcases hh with hh | hh
      · subst hh
        exact handleOperation_logged_noteID marshal db r.client r.msg r.faults d hs
      · exact ih _ h hh d hs

/-- The log after a run is the log before it followed by the rows inserted,
in handling order. -/
theorem handleAll_operations (marshal : Message → Option GoString) (rs : List Request) :
    ∀ db : DB, (handleAll marshal db rs).1.operations =
      db.operations ++ (handleAll marshal db rs).2.filterMap (fun h => h.logged) := by
  induction rs with
  | nil => intro db; simp [handleAll]
  | cons r rs ih =>
    intro db
    have hlog : (handleOperation marshal db r.client r.msg r.faults).db.operations =
        db.operations ++ (handleOperation marshal db r.client r.msg r.faults).logged.toList := by
      rcases handleOperation_cases marshal db r.client r.msg r.faults with hA | hB
      · exact hA.2.2.2
      · obtain ⟨op, d1, note, newContent, -, -, -, -, -, -, -, -, -, hlog, hops, -, -⟩ := hB
        rw [hops, hlog]; rfl
    cases hp : (handleOperation marshal db r.client r.msg r.faults).panic with
    | some p =>
      rw [handleAll_cons_panic marshal db r rs p hp]
      simp only [hlog]
      cases hl : (handleOperation marshal db r.client r.msg r.faults).logged <;>
        simp [List.filterMap_cons, hl]
    | none =>
      rw [handleAll_cons_ok marshal db r rs hp]
      simp only [ih, hlog]
      cases hl : (handleOperation marshal db r.client r.msg r.faults).logged <;>
        simp [List.filterMap_cons, hl]

/-- The version of a note after a run is its version before plus the number
of envelopes applied to it, as long as that sum is a Go `int`. -/
theorem handleAll_version (marshal : Message → Option GoString) (d : Nat)
    (rs : List Request) :
    ∀ (db : DB) (n0 : Note), db.notes d = some n0 → minInt ≤ n0.Version →
      n0.Version + appliedCount d (handleAll marshal db rs).2 ≤ maxInt →
      ∃ n, (handleAll marshal db rs).1.notes d = some n ∧
        n.Version = n0.Version + appliedCount d (handleAll marshal db rs).2 := by
  induction rs with
  | nil => intro db n0 h0 _ _; exact ⟨n0, by simpa [handleAll] using h0, by simp [handleAll, appliedCount]⟩
  | cons r rs ih =>
    intro db n0 h0 hlo hhi
    rcases handleOperation_cases marshal db r.client r.msg r.faults with hA | hB
    · obtain ⟨hsv, hnotes, -, -⟩ := hA
      have hnot : ¬ (handleOperation marshal db r.client r.msg r.faults).saved = some d := by
        rw [hsv]; simp
      cases hp : (handleOperation marshal db r.client r.msg r.faults).panic with
      | some p =>
        rw [handleAll_cons_panic marshal db r rs p hp]
        refine ⟨n0, by simpa [hnotes] using h0, ?_⟩
        simp [appliedCount_cons, hnot, appliedCount_nil]
      | none =>
        rw [handleAll_cons_ok marshal db r rs hp] at hhi ⊢
        simp only [appliedCount_cons, if_neg hnot, zero_add] at hhi ⊢
        exact ih _ n0 (by rw [hnotes]; exact h0) hlo hhi
    · obtain ⟨op, d1, note, newContent, -, -, -, -, -, hnote, -, hsv, hp, -, -, hnotes, -⟩ := hB
      rw [handleAll_cons_ok marshal db r rs hp] at hhi ⊢
      by_cases hd : d1 = d
      · subst hd
        have hn : note = n0 := by rw [hnote] at h0; exact Option.some.inj h0
        subst hn
        simp only [appliedCount_cons, hsv, if_true] at hhi ⊢
        have hcnt : (0 : Int) ≤ (appliedCount d1
            (handleAll marshal (handleOperation marshal db r.client r.msg r.faults).db rs).2 : Int) :=
          Int.ofNat_nonneg _
        push_cast at hhi
        have hw : wrapInt (note.Version + 1) = note.Version + 1 :=
          wrapInt_of_inRange _ (by omega) (by omega)
        have hn1 : (handleOperation marshal db r.client r.msg r.faults).db.notes d1 =
            some ⟨newContent, note.Version + 1⟩ := by
          rw [hnotes, hw]; simp
        obtain ⟨n, hn, hv⟩ := ih _ ⟨newContent, note.Version + 1⟩ hn1
          (by show minInt ≤ note.Version + 1; omega)
          (by show note.Version + 1 + _ ≤ maxInt; omega)
        refine ⟨n, hn, ?_⟩
        rw [hv]; push_cast; show note.Version + 1 + _ = _; omega
      · have hnot : ¬ (handleOperation marshal db r.client r.msg r.faults).saved = some d := by
          rw [hsv]; intro h; exact hd (Option.some.inj h)
        simp only [appliedCount_cons, if_neg hnot, zero_add] at hhi ⊢
        have hn1 : (handleOperation marshal db r.client r.msg r.faults).db.notes d =
            some n0 := by
          rw [hnotes, Function.update_noteq (Ne.symm hd)]; exact h0
        exact ih _ n0 hn1 hlo hhi

/-- The rows of the envelopes applied to `d` are among the inserted rows of
`d`, in the same order. -/
theorem applied_rows_sublist (d : Nat) (hs : List HandleResult)
    (hc : ∀ h ∈ hs, ∀ d1, h.saved = some d1 → ∃ row, h.logged = some row ∧ row.NoteID = d1) :
    ((hs.filter (fun h => decide (h.saved = some d))).filterMap (fun h => h.logged)).Sublist
        (rowsOf d (hs.filterMap (fun h => h.logged))) ∧
      ((hs.filter (fun h => decide (h.saved = some d))).filterMap (fun h => h.logged)).length =
        appliedCount d hs := by
  induction hs with
  | nil => simp [rowsOf, appliedCount]
  | cons h hs ih =>
    obtain ⟨ih1, ih2⟩ := ih (fun x hx => hc x (List.mem_cons_of_mem _ hx))
    rw [appliedCount_cons]
    by_cases hd : h.saved = some d
    · obtain ⟨row, hrow, hid⟩ := hc h (List.mem_cons_self _ _) d hd
      have hrows : rowsOf d (row :: hs.filterMap (fun h => h.logged)) =
          row :: rowsOf d (hs.filterMap (fun h => h.logged)) := by
        simp [rowsOf, List.filter_cons, hid]
      simp only [List.filter_cons, hd, decide_True, if_true, List.filterMap_cons, hrow, hrows,
        List.length_cons, ih2]
      exact ⟨List.Sublist.cons₂ _ ih1, by omega⟩
    · simp only [List.filter_cons, hd, decide_False, if_false, Bool.false_eq_true, zero_add]
      refine ⟨?_, ih2⟩
      cases hl : h.logged with
      | none => simpa [List.filterMap_cons, hl] using ih1
      | some row =>
        simp only [List.filterMap_cons, hl]
        by_cases hid : row.NoteID = d
        · have hrows : rowsOf d (row :: hs.filterMap (fun h => h.logged)) =
              row :: rowsOf d (hs.filterMap (fun h => h.logged)) := by
            simp [rowsOf, List.filter_cons, hid]
          rw [hrows]
          exact List.Sublist.cons _ ih1
        · have hrows : rowsOf d (row :: hs.filterMap (fun h => h.logged)) =
              rowsOf d (hs.filterMap (fun h => h.logged)) := by
            simp [rowsOf, List.filter_cons, hid]
          rw [hrows]
          exact ih1

/-- The row a call inserts is the one read off its inputs. -/
theorem handleOperation_logged_eq (marshal : Message → Option GoString) (db : DB)
    (c : Client) (msg : Message) (f : DBFaults) :
    (handleOperation marshal db c msg f).logged = auditRow c msg f := by
  unfold handleOperation auditRow
  cases hop : msg.Operation with
  | none => simp
  | some op =>
    cases hd : parseUint32 c.noteID with
    | none => simp
    | some d =>
      cases hc : f.create with
      | true => simp
      | false =>
        cases hf : f.first with
        | true => simp
        | false =>
          cases hn : db.notes d with
          | none => simp [hn]
          | some note =>
            cases ha : applyOperation note.Content op with
            | error p => simp [hn, ha]
            | ok newContent =>
              cases hs : f.save <;> simp [hn, ha]

/-- A request whose load or save is made to fail is not applied. -/
theorem handleOperation_not_saved_of_fault (marshal : Message → Option GoString) (db : DB)
    (c : Client) (msg : Message) (f : DBFaults) (hf : (f.first || f.save) = true) :
    (handleOperation marshal db c msg f).saved = none := by
  rcases handleOperation_cases marshal db c msg f with hA | hB
  · exact hA.1
  · obtain ⟨op, d1, note, newContent, -, -, -, h1, h2, -, -, -, -, -, -, -, -⟩ := hB
    rw [h1, h2] at hf
    cases hf

theorem failedCount_cons (d : Nat) (r : Request) (rs : List Request) :
    failedCount d (r :: rs) = (if failedAfterInsert d r = true then 1 else 0) + failedCount d rs := by
  unfold failedCount
  by_cases h : failedAfterInsert d r = true
  · simp [List.filter_cons, h]; omega
  · simp [List.filter_cons, h]

/-- For one request and its result: applied or failed after the insert, each
accounts for one row of the note, and never both. -/
theorem handleOperation_row_count (marshal : Message → Option GoString) (db : DB)
    (r : Request) (d : Nat) :
    (if (handleOperation marshal db r.client r.msg r.faults).saved = some d then 1 else 0) +
      (if failedAfterInsert d r = true then 1 else 0) ≤
    (rowsOf d (rowOf r).toList).length := by
  by_cases hs : (handleOperation marshal db r.client r.msg r.faults).saved = some d
  · obtain ⟨row, hrow, hid⟩ := handleOperation_logged_noteID marshal db r.client r.msg r.faults d hs
    rw [handleOperation_logged_eq] at hrow
    have hnf : ¬ failedAfterInsert d r = true := by
      intro hf
      unfold failedAfterInsert rowOf at hf
      rw [hrow] at hf
      simp only [Bool.and_eq_true] at hf
      have := handleOperation_not_saved_of_fault marshal db r.client r.msg r.faults hf.2
      rw [this] at hs
      cases hs
    have hro : rowOf r = some row := hrow
    simp [hs, hnf, hro, rowsOf, hid]
  · by_cases hf : failedAfterInsert d r = true
    · have hf1 := hf
      unfold failedAfterInsert at hf1
      cases hro : rowOf r with
      | none => rw [hro] at hf1; cases hf1
      | some row =>
        rw [hro] at hf1
        simp only [Bool.and_eq_true, decide_eq_true_eq] at hf1
        simp [hs, hf, rowsOf, hf1.1]
    · simp [hs, hf]

/-- The rows a run inserts are those of the requests it handled, read off the
inputs; and the applied requests together with those that failed after their
insert account for distinct rows of the note. -/
theorem handleAll_rows (marshal : Message → Option GoString) (d : Nat) (rs : List Request) :
    ∀ db : DB,
      (handleAll marshal db rs).2.filterMap (fun h => h.logged) =
        (rs.take (handleAll marshal db rs).2.length).filterMap rowOf ∧
      appliedCount d (handleAll marshal db rs).2 +
          failedCount d (rs.take (handleAll marshal db rs).2.length) ≤
        (rowsOf d ((handleAll marshal db rs).2.filterMap (fun h => h.logged))).length ∧
      (handleAll marshal db rs).2.length ≤ rs.length ∧
      ((∀ h ∈ (handleAll marshal db rs).2, h.panic = none) →
        (handleAll marshal db rs).2.length = rs.length) := by
  induction rs with
  | nil => intro db; simp [handleAll, appliedCount, failedCount, rowsOf]
  | cons r rs ih =>
    intro db
    have hlog := handleOperation_logged_eq marshal db r.client r.msg r.faults
    have hcnt := handleOperation_row_count marshal db r d
    have hrows : ∀ l : List OperationRow,
        (rowsOf d ((rowOf r).toList ++ l)).length =
          (rowsOf d (rowOf r).toList).length + (rowsOf d l).length := by
      intro l
      simp [rowsOf, List.filter_append]
    cases hp : (handleOperation marshal db r.client r.msg r.faults).panic with
    | some p =>
      rw [handleAll_cons_panic marshal db r rs p hp]
      have hfm : List.filterMap (fun h => h.logged)
          [handleOperation marshal db r.client r.msg r.faults] = (rowOf r).toList := by
        change (handleOperation marshal db r.client r.msg r.faults).logged = rowOf r at hlog
        cases hl : rowOf r <;> simp [List.filterMap_cons, hlog, hl]
      refine ⟨?_, ?_, by simp, ?_⟩
      · rw [hfm]
        cases hl : rowOf r <;> simp [List.filterMap_cons, hl]
      · rw [hfm]
        simp only [List.length_singleton, List.take_succ_cons, List.take_zero,
          appliedCount_cons, appliedCount_nil, failedCount_cons]
        have : failedCount d [] = 0 := rfl
        omega
      · intro hall
        have := hall _ (List.mem_singleton_self _)
        rw [hp] at this
        cases this
    | none =>
      rw [handleAll_cons_ok marshal db r rs hp]
      obtain ⟨i1, i2, i3, i4⟩ := ih (handleOperation marshal db r.client r.msg r.faults).db
      have hfm : ∀ l : List HandleResult, List.filterMap (fun h => h.logged)
          (handleOperation marshal db r.client r.msg r.faults :: l) =
          (rowOf r).toList ++ List.filterMap (fun h => h.logged) l := by
        intro l
        change (handleOperation marshal db r.client r.msg r.faults).logged = rowOf r at hlog
        cases hl : rowOf r <;> simp [List.filterMap_cons, hlog, hl]
      refine ⟨?_, ?_, ?_, ?_⟩
      · simp only [hfm, List.length_cons, List.take_succ_cons]
        rw [i1]
        cases hl : rowOf r <;> simp [List.filterMap_cons, hl]
      · simp only [hfm, List.length_cons, List.take_succ_cons, appliedCount_cons,
          failedCount_cons, hrows]
        omega
      · simp only [List.length_cons]; omega
      · intro hall
        simp only [List.length_cons]
        rw [i4 (fun h hh => hall h (List.mem_cons_of_mem _ hh))]

/-- C3, as the code has it. For a note at version `V0` and envelopes handled
one after another, `k` of them applied to the note: the stored version ends
at `V0 + k` (as long as `V0 + k` is a Go `int`); the log is the log before
followed by one row for every handled envelope that carries an operation,
whose note id parses and whose insert does not fail, whatever the load, the
applier and the save do afterwards, in handling order; the rows of the `k`
applied envelopes are among the new rows of the note, in application order;
every handled envelope of the note whose load or save fails after its insert
adds a row of its own, so the note has `k` plus at least that many new rows,
strictly more than `k` as soon as there is one such envelope. All envelopes
are handled unless one panics. -/
theorem handleAll_version_and_log (marshal : Message → Option GoString) (db : DB)
    (rs : List Request) (d : Nat) (n0 : Note) (h0 : db.notes d = some n0)
    (hlo : minInt ≤ n0.Version)
    (hhi : n0.Version + appliedCount d (handleAll marshal db rs).2 ≤ maxInt) :
    (∃ n, (handleAll marshal db rs).1.notes d = some n ∧
      n.Version = n0.Version + appliedCount d (handleAll marshal db rs).2) ∧
    (handleAll marshal db rs).1.operations =
      db.operations ++ (handleAll marshal db rs).2.filterMap (fun h => h.logged) ∧
    (((handleAll marshal db rs).2.filter (fun h => decide (h.saved = some d))).filterMap
        (fun h => h.logged)).Sublist
      (rowsOf d ((handleAll marshal db rs).2.filterMap (fun h => h.logged))) ∧
    (((handleAll marshal db rs).2.filter (fun h => decide (h.saved = some d))).filterMap
        (fun h => h.logged)).length = appliedCount d (handleAll marshal db rs).2 ∧
    appliedCount d (handleAll marshal db rs).2 ≤
      (rowsOf d ((handleAll marshal db rs).2.filterMap (fun h => h.logged))).length ∧
    (handleAll marshal db rs).1.operations =
      db.operations ++ (rs.take (handleAll marshal db rs).2.length).filterMap rowOf ∧
    appliedCount d (handleAll marshal db rs).2 +
        failedCount d (rs.take (handleAll marshal db rs).2.length) ≤
      (rowsOf d ((handleAll marshal db rs).1.operations.drop db.operations.length)).length ∧
    ((∃ r ∈ rs.take (handleAll marshal db rs).2.length, failedAfterInsert d r = true) →
      appliedCount d (handleAll marshal db rs).2 <
        (rowsOf d ((handleAll marshal db rs).1.operations.drop db.operations.length)).length) ∧
    (handleAll marshal db rs).2.length ≤ rs.length ∧
    ((∀ h ∈ (handleAll marshal db rs).2, h.panic = none) →
      (handleAll marshal db rs).2.length = rs.length) := by
  have hsub := applied_rows_sublist d (handleAll marshal db rs).2
    (handleAll_coherent marshal rs db)
  have hops := handleAll_operations marshal rs db
  obtain ⟨r1, r2, r3, r4⟩ := handleAll_rows marshal d rs db
  have hdrop : (handleAll marshal db rs).1.operations.drop db.operations.length =
      (handleAll marshal db rs).2.filterMap (fun h => h.logged) := by
    rw [hops, List.drop_left]
  refine ⟨handleAll_version marshal d rs db n0 h0 hlo hhi, hops, hsub.1, hsub.2, ?_, ?_, ?_, ?_,
    r3, r4⟩
  · rw [← hsub.2]
    exact hsub.1.length_le
  · rw [hops, r1]
  · rw [hdrop]; exact r2
  · rintro ⟨r, hr, hf⟩
    rw [hdrop]
    have hpos : 0 < failedCount d (rs.take (handleAll marshal db rs).2.length) := by
      unfold failedCount
      exact List.length_pos_of_mem (List.mem_filter.mpr ⟨hr, hf⟩)
    omega

/-- Witness of C3: note 1 at version 5, one envelope applied, then one whose
save fails after its insert. The version ends at 6, one envelope is applied,
and the log holds more than one row of the note. -/
theorem handleAll_version_and_log_witness :
    (exampleDB.notes 1 = some ⟨str "abc", 5⟩ ∧ minInt ≤ (5 : Int)) ∧
    (∃ n, (handleAll exampleMarshal exampleDB
        [⟨alice, insertMsg, noFaults⟩, ⟨bob, insertMsg, ⟨false, false, true⟩⟩]).1.notes 1 = some n ∧
      n.Version = 5 + 1) ∧
    ((handleAll exampleMarshal exampleDB
        [⟨alice, insertMsg, noFaults⟩, ⟨bob, insertMsg, ⟨false, false, true⟩⟩]).1.operations).length
      = 2 ∧
    appliedCount 1 (handleAll exampleMarshal exampleDB
        [⟨alice, insertMsg, noFaults⟩, ⟨bob, insertMsg, ⟨false, false, true⟩⟩]).2 <
      (rowsOf 1 ((handleAll exampleMarshal exampleDB
        [⟨alice, insertMsg, noFaults⟩, ⟨bob, insertMsg, ⟨false, false, true⟩⟩]).1.operations.drop
          exampleDB.operations.length)).length := by
  have h := handleAll_version_and_log exampleMarshal exampleDB
    [⟨alice, insertMsg, noFaults⟩, ⟨bob, insertMsg, ⟨false, false, true⟩⟩] 1 ⟨str "abc", 5⟩
    (by decide) (by decide) (by decide)
  refine ⟨⟨by decide, by decide⟩, ?_, by decide, ?_⟩
  · obtain ⟨n, hn, hv⟩ := h.1
    exact ⟨n, hn, by rw [hv]; decide⟩
  · have hl : (handleAll exampleMarshal exampleDB
        [⟨alice, insertMsg, noFaults⟩, ⟨bob, insertMsg, ⟨false, false, true⟩⟩]).2.length = 2 := by
      decide
    refine h.2.2.2.2.2.2.2.1 ⟨⟨bob, insertMsg, ⟨false, false, true⟩⟩, ?_, by decide⟩
    rw [hl]
    simp

/-- C3 fails as stated. Note 1 is at version 5 with an empty log; one envelope
is applied and a second one is logged but its save fails. One envelope was
applied and the version is 6, but the log holds two rows of the note. -/
theorem handleAll_log_counterexample :
    exampleDB.notes 1 = some ⟨str "abc", 5⟩ ∧ exampleDB.operations = [] ∧
    appliedCount 1 (handleAll exampleMarshal exampleDB
      [⟨alice, insertMsg, noFaults⟩, ⟨bob, insertMsg, ⟨false, false, true⟩⟩]).2 = 1 ∧
    (handleAll exampleMarshal exampleDB
      [⟨alice, insertMsg, noFaults⟩, ⟨bob, insertMsg, ⟨false, false, true⟩⟩]).1.notes 1 =
        some ⟨str "xabc", 6⟩ ∧
    (rowsOf 1 (handleAll exampleMarshal exampleDB
      [⟨alice, insertMsg, noFaults⟩, ⟨bob, insertMsg, ⟨false, false, true⟩⟩]).1.operations).length
        = 2 := by
  decide

/-- C4, as the code has it. When `handleOperation` applies an envelope to note
`d` stored at version `V` (a Go `int` below the maximum), the row appended to
the log carries the connection's user id, the edit's type, position, content
and length, and the version field the envelope arrived with; the note is
saved with the new content at version `V + 1`, and the envelope handed to the
broadcast is the incoming one stamped with `V + 1`. -/
theorem handleOperation_audit_record (marshal : Message → Option GoString) (db : DB)
    (c : Client) (msg : Message) (f : DBFaults) (d : Nat) (note : Note)
    (hsaved : (handleOperation marshal db c msg f).saved = some d)
    (hnote : db.notes d = some note) (hlo : minInt ≤ note.Version)
    (hhi : note.Version < maxInt) :
    ∃ op newContent, msg.Operation = some op ∧ parseUint32 c.noteID = some d ∧
      applyOperation note.Content op = .ok newContent ∧
      (handleOperation marshal db c msg f).db.operations =
        db.operations ++
          [⟨d, c.userID, op.Typ, op.Position, op.Content, op.Length, msg.Version⟩] ∧
      (handleOperation marshal db c msg f).db.notes d =
        some ⟨newContent, note.Version + 1⟩ ∧
      (handleOperation marshal db c msg f).broadcast =
        marshal { msg with Version := note.Version + 1 } := by
  rcases handleOperation_cases marshal db c msg f with hA | hB
  · rw [hA.1] at hsaved; cases hsaved
  · obtain ⟨op, d1, note1, newContent, hop, hd, -, -, -, hn, ha, hsv, -, -, hops, hnotes, hb⟩ := hB
    rw [hsv] at hsaved
    cases hsaved
    rw [hnote] at hn
    cases hn
    have hw : wrapInt (note.Version + 1) = note.Version + 1 :=
      wrapInt_of_inRange _ (by omega) (by omega)
    rw [hw] at hnotes hb
    exact ⟨op, newContent, hop, hd, ha, hops, by rw [hnotes]; simp, hb⟩

/-- Witness of C4: `alice` inserts `x` at 0 into note 1 (content `abc`,
version 5); the envelope arrives with version 0. -/
theorem handleOperation_audit_record_witness :
    ((handleOperation exampleMarshal exampleDB alice insertMsg noFaults).saved = some 1 ∧
      exampleDB.notes 1 = some ⟨str "abc", 5⟩ ∧ minInt ≤ (5 : Int) ∧ (5 : Int) < maxInt) ∧
    ∃ op newContent, insertMsg.Operation = some op ∧ parseUint32 alice.noteID = some 1 ∧
      applyOperation (str "abc") op = .ok newContent ∧
      (handleOperation exampleMarshal exampleDB alice insertMsg noFaults).db.operations =
        exampleDB.operations ++
          [⟨1, alice.userID, op.Typ, op.Position, op.Content, op.Length, insertMsg.Version⟩] ∧
      (handleOperation exampleMarshal exampleDB alice insertMsg noFaults).db.notes 1 =
        some ⟨newContent, 5 + 1⟩ ∧
      (handleOperation exampleMarshal exampleDB alice insertMsg noFaults).broadcast =
        exampleMarshal { insertMsg with Version := 5 + 1 } :=
  ⟨⟨by decide, by decide, by decide, by decide⟩,
    handleOperation_audit_record exampleMarshal exampleDB alice insertMsg noFaults 1
      ⟨str "abc", 5⟩ (by decide) (by decide) (by decide) (by decide)⟩

/-- C4 fails as stated. `alice` inserts `x` at 0 into note 1 stored at version
5, in an envelope that arrives with version 0: the note is saved at version 6
and the broadcast envelope is stamped 6, but the audit row carries version 0. -/
theorem handleOperation_audit_version_counterexample :
    exampleDB.notes 1 = some ⟨str "abc", 5⟩ ∧
    (handleOperation exampleMarshal exampleDB alice insertMsg noFaults).saved = some 1 ∧
    (handleOperation exampleMarshal exampleDB alice insertMsg noFaults).db.notes 1 =
      some ⟨str "xabc", 6⟩ ∧
    (handleOperation exampleMarshal exampleDB alice insertMsg noFaults).broadcast =
      exampleMarshal { insertMsg with Version := 6 } ∧
    (handleOperation exampleMarshal exampleDB alice insertMsg noFaults).db.operations =
      [⟨1, 7, str "insert", 0, str "x", 0, 0⟩] ∧
    ((handleOperation exampleMarshal exampleDB alice insertMsg noFaults).db.operations.map
      (fun r => r.Version)) ≠ [5 + 1] := by
  decide

/-- C5. If the load of the note fails (the query errs or finds no live row)
or the save fails while `handleOperation` processes an envelope, nothing is
handed to the hub's broadcast and the table of notes (every content and
version) is as before; in the surrounding `readPump` step no client's queue
and no room changes, so nothing reaches the originator either. -/
theorem handleOperation_store_failure (unmarshal : GoString → Option Message)
    (marshal : Message → Option GoString) (sys : System) (c : Client) (msg : Message)
    (f : DBFaults)
    (hfail : f.first = true ∨ f.save = true ∨
      ∃ d, parseUint32 c.noteID = some d ∧ sys.db.notes d = none) :
    (handleOperation marshal sys.db c msg f).broadcast = none ∧
    (handleOperation marshal sys.db c msg f).saved = none ∧
    (handleOperation marshal sys.db c msg f).db.notes = sys.db.notes ∧
    (dispatchOperation unmarshal marshal sys c msg f).db.notes = sys.db.notes ∧
    (dispatchOperation unmarshal marshal sys c msg f).hub.clients = sys.hub.clients ∧
    (dispatchOperation unmarshal marshal sys c msg f).hub.send = sys.hub.send := by
  have key : ∀ m : Message, (handleOperation marshal sys.db c m f).saved = none ∧
      (handleOperation marshal sys.db c m f).db.notes = sys.db.notes ∧
      (handleOperation marshal sys.db c m f).broadcast = none := by
    intro m
    rcases handleOperation_cases marshal sys.db c m f with hA | hB
    · exact ⟨hA.1, hA.2.1, hA.2.2.1⟩
    · obtain ⟨op, d1, note1, newContent, -, hd, -, hf1, hf2, hn, -, -, -, -, -, -, -⟩ := hB
      rcases hfail with h | h | ⟨d, hd2, hn2⟩
      · rw [hf1] at h; cases h
      · rw [hf2] at h; cases h
      · rw [hd] at hd2; cases hd2; rw [hn] at hn2; cases hn2
  obtain ⟨k1, k2, k3⟩ := key msg
  obtain ⟨-, j2, j3⟩ := key { msg with UserID := c.userID, NoteID := c.noteID }
  refine ⟨k3, k1, k2, ?_, ?_, ?_⟩ <;>
  · unfold dispatchOperation
    split
    · rfl
    · simp only [j3]
      split <;> simp [j2]

/-- Witness of C5: the save fails on `alice`'s insert into note 1. -/
theorem handleOperation_store_failure_witness :
    ((⟨false, false, true⟩ : DBFaults).save = true) ∧
    (handleOperation exampleMarshal exampleDB alice insertMsg ⟨false, false, true⟩).broadcast
      = none ∧
    (handleOperation exampleMarshal exampleDB alice insertMsg ⟨false, false, true⟩).db.notes 1
      = some ⟨str "abc", 5⟩ ∧
    ((dispatchOperation exampleUnmarshal exampleMarshal ⟨exampleDB, register NewHub alice⟩
      alice insertMsg ⟨false, false, true⟩).hub.send alice).buf = [] := by
  have h := handleOperation_store_failure exampleUnmarshal exampleMarshal
    ⟨exampleDB, register NewHub alice⟩ alice insertMsg ⟨false, false, true⟩
    (Or.inr (Or.inl rfl))
  refine ⟨rfl, h.1, ?_, ?_⟩
  · have h3 := h.2.2.1
    exact (congrFun h3 1).trans (by decide)
  · rw [h.2.2.2.2.2]; rfl

/-! ## The hub worker -/

/-- One turn of the broadcast loop on an open channel. -/
theorem deliver_open (A m : GoString) (s : HubState) (x : Client) (hp : s.panicked = none)
    (ho : (s.send x).closed = false) :
    deliver A m s x =
      { s with
        send := Function.update s.send x (sendOrClose m (s.send x))
        clients := if isFull (s.send x) = true then
            Function.update s.clients A ((s.clients A).map (fun room => deleteClient room x))
          else s.clients } := by
  unfold deliver sendOrClose isFull
  by_cases hl : (s.send x).buf.length < sendCap
  · have hnf : ¬ sendCap ≤ (s.send x).buf.length := not_le.mpr hl
    simp [hp, ho, hl, hnf]
  · have hf : sendCap ≤ (s.send x).buf.length := not_lt.mp hl
    simp [hp, ho, hl, hf]

/-- The broadcast loop touches no channel outside the list it visits. -/
theorem foldl_deliver_send_of_not_mem (A m : GoString) (c : Client) (l : List Client) :
    ∀ s : HubState, c ∉ l → (l.foldl (deliver A m) s).send c = s.send c := by
  induction l with
  | nil => intro s _; rfl
  | cons x l ih =>
    intro s hc
    have hx : c ≠ x := fun h => hc (h ▸ List.mem_cons_self _ _)
    have hl : c ∉ l := fun h => hc (List.mem_cons_of_mem _ h)
    rw [List.foldl_cons, ih _ hl]
    unfold deliver
    split
    · rfl
    · split
      · rfl
      · split <;> simp [Function.update_noteq hx]

/-- The broadcast loop touches no room but the one it was given. -/
theorem foldl_deliver_clients_of_ne (A m : GoString) (n : GoString) (hn : n ≠ A)
    (l : List Client) :
    ∀ s : HubState, (l.foldl (deliver A m) s).clients n = s.clients n := by
  induction l with
  | nil => intro s; rfl
  | cons x l ih =>
    intro s
    rw [List.foldl_cons, ih]
    unfold deliver
    split
    · rfl
    · split
      · rfl
      · split
        · rfl
        · simp [Function.update_noteq hn]

/-- The broadcast loop adds no member to the room it was given. -/
theorem foldl_deliver_inRoom (A m : GoString) (c : Client) (l : List Client) :
    ∀ s : HubState, inRoom (l.foldl (deliver A m) s) A c → inRoom s A c := by
  induction l with
  | nil => intro s h; exact h
  | cons x l ih =>
    intro s h
    rw [List.foldl_cons] at h
    have h1 := ih _ h
    revert h1
    unfold deliver
    split
    · exact id
    · split
      · exact id
      · split
        · exact id
        · rintro ⟨room, hroom, hmem⟩
          simp only [Function.update_same] at hroom
          cases hs : s.clients A with
          | none => rw [hs] at hroom; simp at hroom
          | some r =>
            rw [hs] at hroom
            simp only [Option.map_some'] at hroom
            cases hroom
            exact ⟨r, hs, (List.mem_filter.mp hmem).1⟩

/-- C6. A broadcast of an envelope whose `note_id` is `A` leaves every
connection registered only in the room of another note `B` as it was: its
queue and open/closed flag, the room of `B`, and its membership in every
room. -/
theorem broadcast_room_isolation (unmarshal : GoString → Option Message) (s : HubState)
    (raw : GoString) (msg : Message) (A B : GoString) (c : Client)
    (hraw : unmarshal raw = some msg) (hA : msg.NoteID = A) (hB : inRoom s B c)
    (hAB : B ≠ A) (honly : ∀ n, inRoom s n c → n = B) :
    (broadcast unmarshal s raw).send c = s.send c ∧
    (broadcast unmarshal s raw).clients B = s.clients B ∧
    ∀ n, inRoom (broadcast unmarshal s raw) n c ↔ inRoom s n c := by
  have _hB := hB
  have hnot : ¬ inRoom s A c := fun h => hAB (honly A h).symm
  unfold broadcast
  split
  · exact ⟨rfl, rfl, fun _ => Iff.rfl⟩
  · rw [hraw]
    simp only [hA]
    cases hroom : s.clients A with
    | none => exact ⟨rfl, rfl, fun _ => Iff.rfl⟩
    | some room =>
      simp only
      have hc : c ∉ room := fun h => hnot ⟨room, hroom, h⟩
      refine ⟨foldl_deliver_send_of_not_mem A raw c room s hc,
        foldl_deliver_clients_of_ne A raw B hAB room s, fun n => ?_⟩
      by_cases hn : n = A
      · subst hn
        exact ⟨fun h => foldl_deliver_inRoom n raw c room s h, fun h => absurd h hnot⟩
      · unfold inRoom
        rw [foldl_deliver_clients_of_ne A raw n hn room s]

/-- Witness of C6: `carol`, alone in the room of note `2`, is untouched by a
broadcast to note `1`. -/
theorem broadcast_room_isolation_witness :
    (exampleUnmarshal cursorBytes = some cursorMsg ∧ cursorMsg.NoteID = str "1" ∧
      inRoom exampleHub (str "2") carol ∧ str "2" ≠ str "1") ∧
    (broadcast exampleUnmarshal exampleHub cursorBytes).send carol = exampleHub.send carol ∧
    (broadcast exampleUnmarshal exampleHub cursorBytes).clients (str "2") = some [carol] ∧
    ((broadcast exampleUnmarshal exampleHub cursorBytes).send alice).buf = [cursorBytes] := by
  have hin : inRoom exampleHub (str "2") carol := ⟨[carol], by decide, by decide⟩
  have honly : ∀ n, inRoom exampleHub n carol → n = str "2" := by
    rintro n ⟨room, hroom, hmem⟩
    by_cases h1 : n = str "1"
    · subst h1
      have hr : room = [alice, bob] := by
        have : exampleHub.clients (str "1") = some [alice, bob] := by decide
        rw [this] at hroom; exact (Option.some.inj hroom).symm
      subst hr
      exact absurd hmem (by decide)
    · by_cases h2 : n = str "2"
      · exact h2
      · simp [exampleHub, h1, h2] at hroom
  have h := broadcast_room_isolation exampleUnmarshal exampleHub cursorBytes cursorMsg
    (str "1") (str "2") carol (by decide) (by decide) hin (by decide) honly
  exact ⟨⟨by decide, by decide, hin, by decide⟩, h.1, h.2.1.trans (by decide), by decide⟩

/-- What the broadcast loop makes of a state without panic, over a list of
distinct members whose channels are all open. -/
theorem foldl_deliver_spec (A m : GoString) (l : List Client) :
    ∀ s : HubState, s.panicked = none → l.Nodup → (∀ c ∈ l, (s.send c).closed = false) →
      (l.foldl (deliver A m) s).panicked = none ∧
      (∀ c, (l.foldl (deliver A m) s).send c =
        if c ∈ l then sendOrClose m (s.send c) else s.send c) ∧
      (l.foldl (deliver A m) s).clients A =
        (s.clients A).map (fun room =>
          room.filter (fun x => !(decide (x ∈ l) && isFull (s.send x)))) := by
  induction l with
  | nil =>
    intro s hp _ _
    refine ⟨hp, fun c => by simp, ?_⟩
    cases h : s.clients A <;> simp [h]
  | cons x l ih =>
    intro s hp hnd hopen
    have hx : x ∉ l := (List.nodup_cons.mp hnd).1
    have hox : (s.send x).closed = false := hopen x (List.mem_cons_self _ _)
    have hd := deliver_open A m s x hp hox
    have hsend1 : ∀ c, c ≠ x → (deliver A m s x).send c = s.send c := by
      intro c hc; rw [hd]; simp [Function.update_noteq hc]
    have hsendx : (deliver A m s x).send x = sendOrClose m (s.send x) := by
      rw [hd]; simp
    have hp1 : (deliver A m s x).panicked = none := by rw [hd]; exact hp
    have hopen1 : ∀ c ∈ l, ((deliver A m s x).send c).closed = false := by
      intro c hc
      have hcx : c ≠ x := fun h => hx (h ▸ hc)
      rw [hsend1 c hcx]
      exact hopen c (List.mem_cons_of_mem _ hc)
    obtain ⟨i1, i2, i3⟩ := ih (deliver A m s x) hp1 (List.nodup_cons.mp hnd).2 hopen1
    rw [List.foldl_cons]
    refine ⟨i1, fun c => ?_, ?_⟩
    · rw [i2 c]
      by_cases hcx : c = x
      · subst hcx
        simp [hx, hsendx]
      · simp [hcx, hsend1 c hcx]
    · rw [i3]
      have hcl : (deliver A m s x).clients A =
          if isFull (s.send x) = true then
            (s.clients A).map (fun room => deleteClient room x)
          else s.clients A := by
        rw [hd]
        by_cases hf : isFull (s.send x) = true <;> simp [hf]
      rw [hcl]
      cases hroom : s.clients A with
      | none => by_cases hf : isFull (s.send x) = true <;> simp [hf]
      | some room =>
        rcases Bool.eq_false_or_eq_true (isFull (s.send x)) with hf | hf
        · simp only [hf, ↓reduceIte, Option.map_some', deleteClient, List.filter_filter]
          congr 1
          apply List.filter_congr
          intro y _
          by_cases hyx : y = x
          · subst hyx; simp [hf]
          · simp [hyx, hsend1 y hyx]
        · simp only [hf, Bool.false_eq_true, ↓reduceIte, Option.map_some']
          congr 1
          apply List.filter_congr
          intro y _
          by_cases hyx : y = x
          · subst hyx; simp [hf, hx]
          · simp [hyx, hsend1 y hyx]

/-- The slow-consumer drop where no member's queue has been closed. A
broadcast to a room of distinct members, all with an open queue, one of which,
`X`, has a full queue: afterwards `X` is not in the room and its
queue is closed, and every member `Y` whose queue was not full has the
broadcast bytes at the end of its queue, its queue still open, and is still a
member. The worker does not panic. -/
theorem broadcast_slow_consumer (unmarshal : GoString → Option Message) (s : HubState)
    (raw : GoString) (msg : Message) (room : List Client) (X : Client)
    (hraw : unmarshal raw = some msg) (hp : s.panicked = none)
    (hroom : s.clients msg.NoteID = some room) (hnd : room.Nodup)
    (hopen : ∀ c ∈ room, (s.send c).closed = false)
    (hX : X ∈ room) (hfull : sendCap ≤ (s.send X).buf.length) :
    (broadcast unmarshal s raw).panicked = none ∧
    ¬ inRoom (broadcast unmarshal s raw) msg.NoteID X ∧
    ((broadcast unmarshal s raw).send X).closed = true ∧
    ((broadcast unmarshal s raw).send X).buf = (s.send X).buf ∧
    ∀ Y ∈ room, (s.send Y).buf.length < sendCap →
      ((broadcast unmarshal s raw).send Y).buf = (s.send Y).buf ++ [raw] ∧
      ((broadcast unmarshal s raw).send Y).closed = false ∧
      inRoom (broadcast unmarshal s raw) msg.NoteID Y := by
  have hb : broadcast unmarshal s raw = room.foldl (deliver msg.NoteID raw) s := by
    unfold broadcast
    simp [hp, hraw, hroom]
  obtain ⟨k1, k2, k3⟩ := foldl_deliver_spec msg.NoteID raw room s hp hnd hopen
  rw [hb]
  have hXfull : isFull (s.send X) = true := by simp [isFull, hfull]
  refine ⟨k1, ?_, ?_, ?_, ?_⟩
  · rintro ⟨r, hr, hmem⟩
    rw [k3, hroom] at hr
    simp only [Option.map_some'] at hr
    cases hr
    have := (List.mem_filter.mp hmem).2
    simp [hX, hXfull] at this
  · rw [k2 X, if_pos hX]
    have : ¬ (s.send X).buf.length < sendCap := not_lt.mpr hfull
    simp [sendOrClose, this]
  · rw [k2 X, if_pos hX]
    have : ¬ (s.send X).buf.length < sendCap := not_lt.mpr hfull
    simp [sendOrClose, this]
  · intro Y hY hlt
    have hYfull : isFull (s.send Y) = false := by
      simp [isFull, hlt]
    rw [k2 Y, if_pos hY]
    refine ⟨by simp [sendOrClose, hlt], by simp [sendOrClose, hlt, hopen Y hY], ?_⟩
    refine ⟨_, by rw [k3, hroom]; rfl, ?_⟩
    exact List.mem_filter.mpr ⟨hY, by simp [hYfull]⟩

/-- An instance of the drop: `alice`'s queue is full, `bob`'s is empty; a
broadcast to their room drops `alice` and reaches `bob`. -/
theorem broadcast_slow_consumer_witness :
    (exampleUnmarshal cursorBytes = some cursorMsg ∧ slowHub.panicked = none ∧
      slowHub.clients cursorMsg.NoteID = some [alice, bob] ∧
      sendCap ≤ (slowHub.send alice).buf.length) ∧
    ¬ inRoom (broadcast exampleUnmarshal slowHub cursorBytes) cursorMsg.NoteID alice ∧
    ((broadcast exampleUnmarshal slowHub cursorBytes).send alice).closed = true ∧
    ((broadcast exampleUnmarshal slowHub cursorBytes).send bob).buf = [cursorBytes] ∧
    inRoom (broadcast exampleUnmarshal slowHub cursorBytes) cursorMsg.NoteID bob := by
  have hlen : sendCap ≤ (slowHub.send alice).buf.length := by
    simp [slowHub, fullChan]
  have hopen : ∀ c ∈ [alice, bob], (slowHub.send c).closed = false := by
    intro c hc
    simp only [List.mem_cons, List.mem_singleton, List.not_mem_nil, or_false] at hc
    rcases hc with rfl | rfl <;> decide
  have h := broadcast_slow_consumer exampleUnmarshal slowHub cursorBytes cursorMsg
    [alice, bob] alice (by decide) rfl (by decide) (by decide) hopen (by decide) hlen
  have hb := h.2.2.2.2 bob (by decide) (by decide)
  exact ⟨⟨by decide, rfl, by decide, hlen⟩, h.2.1, h.2.2.1, hb.1, hb.2.2⟩

theorem unregister_of_panicked (s : HubState) (c : Client) (hp : s.panicked.isSome = true) :
    unregister s c = s := by
  unfold unregister; rw [if_pos hp]

theorem unregister_of_not_member (s : HubState) (c : Client)
    (h : ∀ room, s.clients c.noteID = some room → c ∉ room) : unregister s c = s := by
  unfold unregister
  split
  · rfl
  · cases hroom : s.clients c.noteID with
    | none => rfl
    | some room => simp [h room hroom]

theorem not_mem_deleteClient (room : List Client) (c : Client) : c ∉ deleteClient room c := by
  unfold deleteClient
  intro h
  have := (List.mem_filter.mp h).2
  simp at this

/-- After an `unregister` of `c` the process has panicked or `c` is not in the
room of its note. -/
theorem unregister_result (s : HubState) (c : Client) :
    (unregister s c).panicked.isSome = true ∨
      ∀ room, (unregister s c).clients c.noteID = some room → c ∉ room := by
  unfold unregister
  by_cases hp : s.panicked.isSome = true
  · left; rw [if_pos hp]; exact hp
  · rw [if_neg hp]
    cases hroom : s.clients c.noteID with
    | none => right; intro room h; simp [hroom] at h
    | some room =>
      by_cases hc : c ∈ room
      · simp only [if_pos hc]
        by_cases hcl : (s.send c).closed = true
        · left; simp [hcl]
        · right
          simp only [hcl]
          by_cases hlen : (deleteClient room c).length = 0
          · intro r h; simp [hlen] at h
          · intro r h
            simp [hlen] at h
            rw [← h]
            exact not_mem_deleteClient room c
      · right
        intro r h
        simp only [if_neg hc] at h
        rw [hroom] at h
        cases h
        exact hc

/-- C8. `unregister` is idempotent on the whole hub state (rooms, queues,
open/closed flags, panic flag), and on a connection that is in no room it
changes nothing: no queue is closed again and nothing panics. -/
theorem unregister_idempotent (s : HubState) (c : Client) :
    unregister (unregister s c) c = unregister s c ∧
    ((¬ ∃ n, inRoom s n c) → unregister s c = s) := by
  constructor
  · rcases unregister_result s c with h | h
    · exact unregister_of_panicked _ c h
    · exact unregister_of_not_member _ c h
  · intro hno
    apply unregister_of_not_member
    intro room hroom hc
    exact hno ⟨c.noteID, room, hroom, hc⟩

/-- Witness of C8: `alice` leaves `exampleHub` twice; `alice` leaves the new
hub, where she is in no room. -/
theorem unregister_idempotent_witness :
    (¬ ∃ n, inRoom NewHub n alice) ∧
    unregister (unregister exampleHub alice) alice = unregister exampleHub alice ∧
    ((unregister exampleHub alice).send alice).closed = true ∧
    (unregister exampleHub alice).clients (str "1") = some [bob] ∧
    unregister NewHub alice = NewHub := by
  have hno : ¬ ∃ n, inRoom NewHub n alice := by
    rintro ⟨n, room, hroom, -⟩
    simp [NewHub] at hroom
  exact ⟨hno, (unregister_idempotent exampleHub alice).1, by decide, by decide,
    (unregister_idempotent NewHub alice).2 hno⟩

/-- The room teardown where the queue has not been closed. When `c` is the
only member of the room of its note `d`, its queue is open and the worker has
not panicked: after `unregister` the room map has no
entry for `d`, and a broadcast of any envelope whose `note_id` is `d` leaves
the hub state as it is (so nothing is enqueued) and does not panic. -/
theorem unregister_last_then_broadcast (unmarshal : GoString → Option Message) (s : HubState)
    (c : Client) (d : GoString) (raw : GoString) (msg : Message)
    (hp : s.panicked = none) (hroom : s.clients d = some [c]) (hd : c.noteID = d)
    (hopen : (s.send c).closed = false) (hraw : unmarshal raw = some msg)
    (hmsg : msg.NoteID = d) :
    (unregister s c).clients d = none ∧
    (unregister s c).panicked = none ∧
    broadcast unmarshal (unregister s c) raw = unregister s c := by
  subst hd
  have hdel : deleteClient [c] c = [] := by simp [deleteClient]
  have h1 : (unregister s c).clients c.noteID = none := by
    unfold unregister
    simp [hp, hroom, hopen, hdel]
  have h2 : (unregister s c).panicked = none := by
    unfold unregister
    simp [hp, hroom, hopen, hdel]
  refine ⟨h1, h2, ?_⟩
  unfold broadcast
  simp [h2, hraw, hmsg, h1]

/-- An instance of the teardown: `carol` is alone in the room of note `2`. -/
theorem unregister_last_then_broadcast_witness :
    (exampleHub.panicked = none ∧ exampleHub.clients (str "2") = some [carol] ∧
      carol.noteID = str "2" ∧ (exampleHub.send carol).closed = false) ∧
    (unregister exampleHub carol).clients (str "2") = none ∧
    (unregister exampleHub carol).panicked = none ∧
    broadcast exampleUnmarshal (unregister exampleHub carol) cursorBytes2 =
      unregister exampleHub carol :=
  ⟨⟨rfl, by decide, by decide, by decide⟩,
    unregister_last_then_broadcast exampleUnmarshal exampleHub carol (str "2") cursorBytes2
      cursorMsg2 rfl (by decide) (by decide) (by decide) (by decide) (by decide)⟩

/-- A broadcast to a room whose only member has an open queue. -/
theorem broadcast_single (unmarshal : GoString → Option Message) (s : HubState)
    (raw : GoString) (msg : Message) (c : Client) (hraw : unmarshal raw = some msg)
    (hp : s.panicked = none) (hroom : s.clients msg.NoteID = some [c])
    (hopen : (s.send c).closed = false) :
    (broadcast unmarshal s raw).panicked = none ∧
    (broadcast unmarshal s raw).send c = sendOrClose raw (s.send c) ∧
    (broadcast unmarshal s raw).clients msg.NoteID =
      some (if isFull (s.send c) = true then [] else [c]) := by
  have hb : broadcast unmarshal s raw = deliver msg.NoteID raw s c := by
    unfold broadcast
    simp [hp, hraw, hroom]
  rw [hb, deliver_open msg.NoteID raw s c hp hopen]
  refine ⟨hp, by simp, ?_⟩
  rcases Bool.eq_false_or_eq_true (isFull (s.send c)) with hf | hf
  · simp [hf, hroom, deleteClient]
  · simp [hf, hroom]

/-- After `register alice` and `n <= 256` broadcasts to her note that her
writer does not drain, `alice` is alone in her room with `n` queued messages. -/
theorem hubRun_fill (n : Nat) (hn : n ≤ sendCap) :
    (hubRun exampleUnmarshal NewHub
        (.register alice :: List.replicate n (.broadcast cursorBytes))).panicked = none ∧
    (hubRun exampleUnmarshal NewHub
        (.register alice :: List.replicate n (.broadcast cursorBytes))).clients (str "1") =
      some [alice] ∧
    (hubRun exampleUnmarshal NewHub
        (.register alice :: List.replicate n (.broadcast cursorBytes))).send alice =
      { buf := List.replicate n cursorBytes, closed := false } := by
  induction n with
  | zero => exact ⟨rfl, by decide, rfl⟩
  | succ n ih =>
    obtain ⟨i1, i2, i3⟩ := ih (Nat.le_of_succ_le hn)
    have hrun : hubRun exampleUnmarshal NewHub
        (.register alice :: List.replicate (n + 1) (.broadcast cursorBytes)) =
        broadcast exampleUnmarshal (hubRun exampleUnmarshal NewHub
          (.register alice :: List.replicate n (.broadcast cursorBytes))) cursorBytes := by
      unfold hubRun
      rw [List.replicate_succ', ← List.cons_append, List.foldl_append]
      rfl
    have hopen : ((hubRun exampleUnmarshal NewHub
        (.register alice :: List.replicate n (.broadcast cursorBytes))).send alice).closed =
        false := by rw [i3]
    obtain ⟨b1, b2, b3⟩ := broadcast_single exampleUnmarshal _ cursorBytes cursorMsg alice
      (by decide) i1 i2 hopen
    have hlt : n < sendCap := hn
    rw [hrun]
    refine ⟨b1, ?_, ?_⟩
    · have hnf : isFull ((hubRun exampleUnmarshal NewHub
          (.register alice :: List.replicate n (.broadcast cursorBytes))).send alice) = false := by
        rw [i3]; simp [isFull, hlt]
      have b3' := b3
      rw [hnf] at b3'
      simpa using b3'
    · rw [b2, i3]
      simp [sendOrClose, hlt, List.replicate_succ']

/-- One more broadcast after `hubRun_fill` has filled the queue. -/
theorem hubRun_overflow (n : Nat) (hn : n = sendCap) :
    (hubRun exampleUnmarshal NewHub
        (.register alice :: List.replicate (n + 1) (.broadcast cursorBytes))).panicked = none ∧
    (hubRun exampleUnmarshal NewHub
        (.register alice :: List.replicate (n + 1) (.broadcast cursorBytes))).clients (str "1") =
      some [] := by
  obtain ⟨i1, i2, i3⟩ := hubRun_fill n (le_of_eq hn)
  have hrun : hubRun exampleUnmarshal NewHub
      (.register alice :: List.replicate (n + 1) (.broadcast cursorBytes)) =
      broadcast exampleUnmarshal (hubRun exampleUnmarshal NewHub
        (.register alice :: List.replicate n (.broadcast cursorBytes))) cursorBytes := by
    unfold hubRun
    rw [List.replicate_succ', ← List.cons_append, List.foldl_append]
    rfl
  have hopen : ((hubRun exampleUnmarshal NewHub
      (.register alice :: List.replicate n (.broadcast cursorBytes))).send alice).closed =
      false := by rw [i3]
  obtain ⟨b1, -, b3⟩ := broadcast_single exampleUnmarshal _ cursorBytes cursorMsg alice
    (by decide) i1 i2 hopen
  have hf : isFull ((hubRun exampleUnmarshal NewHub
      (.register alice :: List.replicate n (.broadcast cursorBytes))).send alice) = true := by
    rw [i3]; simp [isFull, hn]
  rw [hrun]
  refine ⟨b1, ?_⟩
  have b3' := b3
  rw [hf] at b3'
  simpa using b3'

/-- C10, at the failing trace. From the new hub: `alice` registers for note
`1`, then 257 envelopes are broadcast to note `1` while her writer is stalled.
The first 256 fill her queue; the 257th closes it and deletes her from the
room, and the room stays in the map with no member. -/
theorem broadcast_leaves_empty_room :
    (hubRun exampleUnmarshal NewHub
        (.register alice :: List.replicate 257 (.broadcast cursorBytes))).panicked = none ∧
    (hubRun exampleUnmarshal NewHub
        (.register alice :: List.replicate 257 (.broadcast cursorBytes))).clients (str "1") =
      some [] := by
  have h := hubRun_overflow 256 rfl
  rw [show (256 + 1 : Nat) = 257 from rfl] at h
  exact h

/-! ## Where the rooms stay non-empty, and the order of the broadcast loop -/

theorem hubState_ext (t u : HubState) (h1 : t.clients = u.clients) (h2 : t.send = u.send)
    (h3 : t.panicked = u.panicked) : t = u := by
  cases t; cases u; simp only at h1 h2 h3; subst h1 h2 h3; rfl

/-- Go ranges over a map in no fixed order: without a closed queue among the
members, the broadcast loop ends in the same state whatever the order. -/
theorem foldl_deliver_perm (A m : GoString) (l l1 : List Client) (s : HubState)
    (hperm : l.Perm l1) (hp : s.panicked = none) (hnd : l.Nodup)
    (hopen : ∀ c ∈ l, (s.send c).closed = false) :
    l.foldl (deliver A m) s = l1.foldl (deliver A m) s := by
  obtain ⟨a1, a2, a3⟩ := foldl_deliver_spec A m l s hp hnd hopen
  obtain ⟨b1, b2, b3⟩ := foldl_deliver_spec A m l1 s hp (hperm.nodup_iff.mp hnd)
    (fun c hc => hopen c (hperm.mem_iff.mpr hc))
  apply hubState_ext
  · funext n
    by_cases hn : n = A
    · subst hn
      rw [a3, b3]
      congr 1
      funext room
      apply List.filter_congr
      intro x _
      simp [hperm.mem_iff]
    · rw [foldl_deliver_clients_of_ne A m n hn l s, foldl_deliver_clients_of_ne A m n hn l1 s]
  · funext c
    rw [a2, b2]
    simp [hperm.mem_iff]
  · rw [a1, b1]

/-- The `register` case keeps every room non-empty. -/
theorem register_roomsNonEmpty (s : HubState) (c : Client) (h : roomsNonEmpty s) :
    roomsNonEmpty (register s c) := by
  unfold register
  by_cases hp : s.panicked.isSome = true
  · rw [if_pos hp]; exact h
  · rw [if_neg hp]
    intro hp1 n room hroom
    by_cases hn : n = c.noteID
    · subst hn
      simp only [Function.update_same] at hroom
      cases hroom
      unfold insertClient
      split
      · rename_i hc; exact List.ne_nil_of_mem hc
      · simp
    · simp only [Function.update_noteq hn] at hroom
      exact h hp1 n room hroom

/-- The `unregister` case keeps every room non-empty: it deletes the room it
has emptied. -/
theorem unregister_roomsNonEmpty (s : HubState) (c : Client) (h : roomsNonEmpty s) :
    roomsNonEmpty (unregister s c) := by
  unfold unregister
  by_cases hp : s.panicked.isSome = true
  · rw [if_pos hp]; exact h
  · rw [if_neg hp]
    have hp0 : s.panicked = none := by
      cases hq : s.panicked with
      | none => rfl
      | some p => simp [hq] at hp
    cases hroom : s.clients c.noteID with
    | none => exact h
    | some room =>
      by_cases hc : c ∈ room
      · by_cases hcl : (s.send c).closed = true
        · intro hp1; simp [hc, hcl] at hp1
        · by_cases hlen : (deleteClient room c).length = 0
          · intro _ n r hr
            simp only [hc, hcl, hlen, if_true] at hr
            by_cases hn : n = c.noteID
            · subst hn; simp at hr
            · simp [Function.update_noteq hn] at hr
              exact h hp0 n r hr
          · intro _ n r hr
            simp only [hc, hcl, hlen, if_true, if_false] at hr
            by_cases hn : n = c.noteID
            · subst hn
              simp at hr
              intro he
              exact hlen (by rw [hr, he]; rfl)
            · simp [Function.update_noteq hn] at hr
              exact h hp0 n r hr
      · simp only [if_neg hc]
        exact h

/-! ## The operation applier on untrusted input -/

/-- C13, at the failing input. Inserting `X` into `abc` at position -1: the
guard `op.Position > len(content)` does not fire and `content[:-1]` panics. -/
theorem applyOperation_negative_position :
    applyOperation (str "abc") (Operation.mk (str "insert") (-1) (str "X") 0) =
      .error .sliceBounds ∧
    applyOperation (str "abc") (Operation.mk (str "delete") (-1) [] 1) =
      .error .sliceBounds := by
  decide

/-- On a position and a length that are not negative and whose sum is a Go
`int`, `applyOperation` returns, whatever the type string. -/
theorem applyOperation_total_of_nonneg (content : GoString) (op : Operation)
    (hp : 0 ≤ op.Position) (hl : 0 ≤ op.Length) (hsum : op.Position + op.Length ≤ maxInt) :
    ∃ r, applyOperation content op = .ok r := by
  by_cases hI : op.Typ = str "insert"
  · unfold applyOperation
    rw [if_pos hI]
    by_cases h : op.Position > len content
    · rw [if_pos h]; exact ⟨_, rfl⟩
    · rw [if_neg h]
      have hle : op.Position ≤ len content := not_lt.mp h
      simp [sliceTo, sliceFrom, hp, hle, bind, Except.bind]
  · by_cases hD : op.Typ = str "delete"
    · exact ⟨_, applyOperation_delete_of_no_overflow content op hD hp hl hsum⟩
    · unfold applyOperation
      rw [if_neg hI, if_neg hD]
      exact ⟨_, rfl⟩

/-- C14, at the failing input. Deleting from `abc` at position 2 with length
-1: `end` is 1, both slices are within bounds, and the result
`content[:2] + content[1:]` is `abbc`, one byte longer than `abc`. -/
theorem applyOperation_delete_negative_length :
    applyOperation (str "abc") (Operation.mk (str "delete") 2 [] (-1)) = .ok (str "abbc") ∧
    (str "abc").length < (str "abbc").length := by
  decide

/-- With a length that is not negative (position and length Go `int`s), a
delete that returns gives back `content` with the bytes from `position` up to
some `e >= position` removed, which is no longer than `content`. -/
theorem applyOperation_delete_shrinks_of_nonneg_length (content r : GoString)
    (op : Operation) (hT : op.Typ = str "delete") (hl : 0 ≤ op.Length)
    (hlmax : op.Length ≤ maxInt) (hpmax : op.Position ≤ maxInt)
    (h : applyOperation content op = .ok r) :
    r.length ≤ content.length ∧
    (r = content ∨ ∃ e : Nat, op.Position.toNat ≤ e ∧
      r = content.take op.Position.toNat ++ content.drop e) := by
  have hne : ¬ op.Typ = str "insert" := by rw [hT]; decide
  have hlen := len_nonneg content
  by_cases hge : op.Position ≥ len content
  · have hr : applyOperation content op = .ok content := by
      unfold applyOperation
      rw [if_neg hne, if_pos hT, if_pos hge]
    rw [hr] at h
    cases h
    exact ⟨le_refl _, Or.inl rfl⟩
  · have hlt : op.Position < len content := not_le.mp hge
    by_cases hp : 0 ≤ op.Position
    · by_cases hsum : op.Position + op.Length ≤ maxInt
      · rw [applyOperation_delete_of_no_overflow content op hT hp hl hsum, if_neg hge] at h
        cases h
        have hmin : op.Position ≤ min (op.Position + op.Length) (len content) :=
          le_min (by omega) (le_of_lt hlt)
        have hnat : op.Position.toNat ≤ (min (op.Position + op.Length) (len content)).toNat :=
          Int.toNat_le_toNat hmin
        refine ⟨?_, Or.inr ⟨_, hnat, rfl⟩⟩
        simp only [List.length_append, List.length_take, List.length_drop]
        omega
      · exfalso
        have hw : wrapInt (op.Position + op.Length) < 0 := by
          unfold wrapInt
          unfold maxInt at hsum hlmax hpmax
          omega
        have hnot : ¬ wrapInt (op.Position + op.Length) > len content := by omega
        unfold applyOperation at h
        rw [if_neg hne, if_pos hT, if_neg hge] at h
        have hneg : ¬ (0 ≤ wrapInt (op.Position + op.Length) ∧
            wrapInt (op.Position + op.Length) ≤ len content) := by omega
        simp [sliceTo, sliceFrom, hp, le_of_lt hlt, hnot, hneg, bind, Except.bind] at h
    · exfalso
      unfold applyOperation at h
      rw [if_neg hne, if_pos hT, if_neg hge] at h
      simp [sliceTo, hp, bind, Except.bind] at h

/-! ## One room per connection -/

theorem roomsKeyed_of_shrink (s t : HubState) (h : roomsKeyed s)
    (hsub : ∀ n room1, t.clients n = some room1 →
      ∃ room, s.clients n = some room ∧ room1.Sublist room) : roomsKeyed t := by
  intro n room1 hroom1
  obtain ⟨room, hroom, hs⟩ := hsub n room1 hroom1
  obtain ⟨hnd, hkey⟩ := h n room hroom
  exact ⟨hnd.sublist hs, fun c hc => hkey c (hs.subset hc)⟩

theorem deleteClient_sublist (room : List Client) (c : Client) :
    (deleteClient room c).Sublist room := by
  unfold deleteClient
  exact List.filter_sublist _

theorem roomsKeyed_NewHub : roomsKeyed NewHub := by
  intro n room h
  simp [NewHub] at h

theorem register_roomsKeyed (s : HubState) (c : Client) (h : roomsKeyed s) :
    roomsKeyed (register s c) := by
  unfold register
  by_cases hp : s.panicked.isSome = true
  · rw [if_pos hp]; exact h
  · rw [if_neg hp]
    intro n room hroom
    by_cases hn : n = c.noteID
    · subst hn
      simp only [Function.update_same] at hroom
      cases hroom
      cases hr : s.clients c.noteID with
      | none => simp [insertClient]
      | some r =>
        obtain ⟨hnd, hkey⟩ := h c.noteID r hr
        simp only
        unfold insertClient
        by_cases hc : c ∈ r
        · rw [if_pos hc]; exact ⟨hnd, hkey⟩
        · rw [if_neg hc]
          refine ⟨?_, ?_⟩
          · rw [List.nodup_append]
            refine ⟨hnd, List.nodup_singleton c, ?_⟩
            intro x hx hx1
            rw [List.mem_singleton] at hx1
            subst hx1
            exact hc hx
          · intro x hx
            rcases List.mem_append.mp hx with hx | hx
            · exact hkey x hx
            · rw [List.mem_singleton] at hx; rw [hx]
    · simp only [Function.update_noteq hn] at hroom
      exact h n room hroom

theorem unregister_roomsKeyed (s : HubState) (c : Client) (h : roomsKeyed s) :
    roomsKeyed (unregister s c) := by
  apply roomsKeyed_of_shrink s _ h
  intro n room1
  unfold unregister
  by_cases hp : s.panicked.isSome = true
  · rw [if_pos hp]; intro hr; exact ⟨room1, hr, List.Sublist.refl _⟩
  · rw [if_neg hp]
    cases hroom : s.clients c.noteID with
    | none => intro hr; exact ⟨room1, hr, List.Sublist.refl _⟩
    | some room =>
      by_cases hc : c ∈ room
      · by_cases hn : n = c.noteID
        · subst hn
          by_cases hcl : (s.send c).closed = true
          · intro hr
            simp [hc, hcl] at hr
            exact ⟨room, hroom, hr ▸ deleteClient_sublist room c⟩
          · by_cases hlen : (deleteClient room c).length = 0
            · intro hr; simp [hc, hcl, hlen] at hr
            · intro hr
              simp [hc, hcl, hlen] at hr
              exact ⟨room, hroom, hr ▸ deleteClient_sublist room c⟩
        · intro hr
          refine ⟨room1, ?_, List.Sublist.refl _⟩
          by_cases hcl : (s.send c).closed = true
          · simpa [hc, hcl, Function.update_noteq hn] using hr
          · by_cases hlen : (deleteClient room c).length = 0
            · simpa [hc, hcl, hlen, Function.update_noteq hn] using hr
            · simpa [hc, hcl, hlen, Function.update_noteq hn] using hr
      · simp only [if_neg hc]
        intro hr; exact ⟨room1, hr, List.Sublist.refl _⟩

theorem deliver_shrink (A m : GoString) (s : HubState) (x : Client) (n : GoString)
    (room1 : List Client) (hr : (deliver A m s x).clients n = some room1) :
    ∃ room, s.clients n = some room ∧ room1.Sublist room := by
  revert hr
  unfold deliver
  split
  · intro hr; exact ⟨room1, hr, List.Sublist.refl _⟩
  · split
    · intro hr; exact ⟨room1, hr, List.Sublist.refl _⟩
    · split
      · intro hr; exact ⟨room1, hr, List.Sublist.refl _⟩
      · intro hr
        by_cases hn : n = A
        · subst hn
          simp only [Function.update_same] at hr
          cases hs : s.clients n with
          | none => rw [hs] at hr; simp at hr
          | some r =>
            rw [hs] at hr
            simp only [Option.map_some'] at hr
            cases hr
            exact ⟨r, rfl, deleteClient_sublist r x⟩
        · simp only [Function.update_noteq hn] at hr
          exact ⟨room1, hr, List.Sublist.refl _⟩

theorem foldl_deliver_shrink (A m : GoString) (l : List Client) :
    ∀ (s : HubState) (n : GoString) (room1 : List Client),
      (l.foldl (deliver A m) s).clients n = some room1 →
      ∃ room, s.clients n = some room ∧ room1.Sublist room := by
  induction l with
  | nil => intro s n room1 hr; exact ⟨room1, hr, List.Sublist.refl _⟩
  | cons x l ih =>
    intro s n room1 hr
    rw [List.foldl_cons] at hr
    obtain ⟨r1, h1, s1⟩ := ih _ n room1 hr
    obtain ⟨r0, h0, s0⟩ := deliver_shrink A m s x n r1 h1
    exact ⟨r0, h0, s1.trans s0⟩

theorem broadcast_roomsKeyed (unmarshal : GoString → Option Message) (s : HubState)
    (raw : GoString) (h : roomsKeyed s) : roomsKeyed (broadcast unmarshal s raw) := by
  apply roomsKeyed_of_shrink s _ h
  intro n room1
  unfold broadcast
  split
  · intro hr; exact ⟨room1, hr, List.Sublist.refl _⟩
  · split
    · intro hr; exact ⟨room1, hr, List.Sublist.refl _⟩
    · split
      · intro hr; exact ⟨room1, hr, List.Sublist.refl _⟩
      · intro hr; exact foldl_deliver_shrink _ _ _ s n room1 hr

theorem hubRun_roomsKeyed (unmarshal : GoString → Option Message) (es : List HubEvent) :
    ∀ s : HubState, roomsKeyed s → roomsKeyed (hubRun unmarshal s es) := by
  induction es with
  | nil => intro s h; exact h
  | cons e es ih =>
    intro s h
    unfold hubRun
    rw [List.foldl_cons]
    apply ih
    cases e with
    | register c => exact register_roomsKeyed s c h
    | unregister c => exact unregister_roomsKeyed s c h
    | broadcast raw => exact broadcast_roomsKeyed unmarshal s raw h

/-- C12. In every hub state reached from the new hub by Register, Unregister
and Broadcast steps, a connection that is in the room of `n` and in the room
of `m` is in one room only (`n = m`), the room of its own note id, and it is
listed there once. -/
theorem hubRun_one_room (unmarshal : GoString → Option Message) (es : List HubEvent)
    (n m : GoString) (c : Client) (hn : inRoom (hubRun unmarshal NewHub es) n c)
    (hm : inRoom (hubRun unmarshal NewHub es) m c) :
    n = m ∧ n = c.noteID ∧
    ∀ room, (hubRun unmarshal NewHub es).clients n = some room → room.count c = 1 := by
  have hk := hubRun_roomsKeyed unmarshal es NewHub roomsKeyed_NewHub
  obtain ⟨r1, hr1, hc1⟩ := hn
  obtain ⟨r2, hr2, hc2⟩ := hm
  have e1 := (hk n r1 hr1).2 c hc1
  have e2 := (hk m r2 hr2).2 c hc2
  refine ⟨by rw [← e1, ← e2], e1.symm, ?_⟩
  intro room hroom
  rw [hr1] at hroom
  cases hroom
  exact List.count_eq_one_of_mem (hk n r1 hr1).1 hc1

/-- Witness of C12: `alice` and `carol` register, an envelope is broadcast;
`alice` is in the room of note `1`. -/
theorem hubRun_one_room_witness :
    inRoom (hubRun exampleUnmarshal NewHub
      [.register alice, .register carol, .broadcast cursorBytes]) (str "1") alice ∧
    str "1" = alice.noteID ∧
    ∀ room, (hubRun exampleUnmarshal NewHub
      [.register alice, .register carol, .broadcast cursorBytes]).clients (str "1") =
        some room → room.count alice = 1 := by
  have hin : inRoom (hubRun exampleUnmarshal NewHub
      [.register alice, .register carol, .broadcast cursorBytes]) (str "1") alice :=
    ⟨[alice], by decide, by decide⟩
  have h := hubRun_one_room exampleUnmarshal
    [.register alice, .register carol, .broadcast cursorBytes] (str "1") (str "1") alice hin hin
  exact ⟨hin, h.2.1, h.2.2⟩

/-! ## The snapshot on join -/

/-- The snapshot send on an open queue with room left. -/
theorem sendCurrentContent_enqueues (marshal : Message → Option GoString) (db : DB)
    (t : HubState) (c : Client) (k : Nat) (note : Note) (data : GoString)
    (hk : parseUint32 c.noteID = some k) (hnote : db.notes k = some note)
    (hdata : marshal (syncMessage c note) = some data) (htp : t.panicked = none)
    (hopen : (t.send c).closed = false) (hlt : (t.send c).buf.length < sendCap) :
    sendCurrentContent marshal db false t c =
      { t with send := Function.update t.send c ⟨(t.send c).buf ++ [data], false⟩ } := by
  unfold sendCurrentContent
  unfold syncMessage at hdata
  simp [htp, hk, hnote, hdata, hopen, hlt]

/-- The snapshot send when the read of the note fails. -/
theorem sendCurrentContent_read_failure (marshal : Message → Option GoString) (db : DB)
    (firstFault : Bool) (t : HubState) (c : Client)
    (hfail : firstFault = true ∨ ∀ k, parseUint32 c.noteID = some k → db.notes k = none) :
    sendCurrentContent marshal db firstFault t c = t := by
  unfold sendCurrentContent
  split
  · rfl
  · cases hk : parseUint32 c.noteID with
    | none => rfl
    | some k =>
      rcases hfail with h | h
      · simp [h]
      · cases firstFault <;> simp [h k hk]

/-- The two steps on their own. Registering `c` puts it in the room of its
note id (creating the room if absent) and touches no queue and no other room.
The snapshot send, run in any state `t` where the queue of `c` is open
and not full, appends exactly one `sync` envelope (note id of `c`, content and
version of the stored note) at the end of that queue, leaves every other
queue and every room as they are, and does not panic: the envelope is the
first message only when the queue was still empty. If the read of the note
fails, the state is left as it is (nothing enqueued, `c` still registered). -/
theorem register_then_snapshot (marshal : Message → Option GoString) (db : DB)
    (s t : HubState) (c : Client) (k : Nat) (note : Note) (data : GoString)
    (hp : s.panicked = none) (hk : parseUint32 c.noteID = some k)
    (hnote : db.notes k = some note) (hdata : marshal (syncMessage c note) = some data)
    (htp : t.panicked = none) (hopen : (t.send c).closed = false)
    (hlt : (t.send c).buf.length < sendCap) :
    (inRoom (register s c) c.noteID c ∧ (register s c).send = s.send ∧
      ∀ n, n ≠ c.noteID → (register s c).clients n = s.clients n) ∧
    ((sendCurrentContent marshal db false t c).send c =
        { buf := (t.send c).buf ++ [data], closed := false } ∧
      (∀ c1, c1 ≠ c → (sendCurrentContent marshal db false t c).send c1 = t.send c1) ∧
      (sendCurrentContent marshal db false t c).clients = t.clients ∧
      (sendCurrentContent marshal db false t c).panicked = none ∧
      ((t.send c).buf = [] → ((sendCurrentContent marshal db false t c).send c).buf = [data])) ∧
    (sendCurrentContent marshal db true t c = t ∧
      ∀ db1 : DB, db1.notes k = none → sendCurrentContent marshal db1 false t c = t) := by
  have hsnap := sendCurrentContent_enqueues marshal db t c k note data hk hnote hdata htp
    hopen hlt
  refine ⟨?_, ?_, ?_⟩
  · have hnp : ¬ s.panicked.isSome = true := by simp [hp]
    unfold register
    rw [if_neg hnp]
    refine ⟨⟨_, Function.update_same _ _ _, ?_⟩, rfl,
      fun n hn => by simp [Function.update_noteq hn]⟩
    unfold insertClient
    split
    · assumption
    · simp
  · rw [hsnap]
    refine ⟨by simp, fun c1 h1 => by simp [Function.update_noteq h1], rfl, htp, ?_⟩
    intro he
    simp [he]
  · refine ⟨sendCurrentContent_read_failure marshal db true t c (Or.inl rfl), fun db1 h1 => ?_⟩
    apply sendCurrentContent_read_failure
    right
    intro k1 hk1
    rw [hk] at hk1
    cases hk1
    exact h1

/-- An instance of the two steps: `alice` joins the new hub and her snapshot
of note 1 (content `abc`, version 5) is sent at once. -/
theorem register_then_snapshot_witness :
    (NewHub.panicked = none ∧ parseUint32 alice.noteID = some 1 ∧
      exampleDB.notes 1 = some ⟨str "abc", 5⟩ ∧
      syncMarshal (syncMessage alice ⟨str "abc", 5⟩) = some syncBytes) ∧
    inRoom (register NewHub alice) alice.noteID alice ∧
    ((sendCurrentContent syncMarshal exampleDB false (register NewHub alice) alice).send
      alice).buf = [syncBytes] := by
  have h := register_then_snapshot syncMarshal exampleDB NewHub (register NewHub alice) alice 1
    ⟨str "abc", 5⟩ syncBytes rfl (by decide) (by decide) (by decide) (by decide) (by decide)
    (by decide)
  exact ⟨⟨rfl, by decide, by decide, by decide⟩, h.1.1, h.2.1.2.2.2.2 (by decide)⟩

/-- On the hub alone: `alice` registers for note 1, the worker broadcasts a
cursor envelope to the room of note 1, then the snapshot is sent. Her queue
holds the cursor envelope first and the `sync` envelope second. -/
theorem snapshot_not_first_counterexample :
    ((sysRun exampleUnmarshal syncMarshal exampleDB NewHub
      [.hub (.register alice), .hub (.broadcast cursorBytes), .snapshot alice false]).send
        alice).buf = [cursorBytes, syncBytes] ∧
    cursorBytes ≠ syncBytes := by
  decide

/-! ## Closed queues of members -/

theorem sysRun_map_hub (unmarshal : GoString → Option Message)
    (marshal : Message → Option GoString) (db : DB) (es : List HubEvent) :
    ∀ s : HubState, sysRun unmarshal marshal db s (es.map SysEvent.hub) =
      hubRun unmarshal s es := by
  induction es with
  | nil => intro s; rfl
  | cons e es ih =>
    intro s
    unfold sysRun hubRun
    rw [List.map_cons, List.foldl_cons, List.foldl_cons]
    exact ih _

theorem sysRun_append (unmarshal : GoString → Option Message)
    (marshal : Message → Option GoString) (db : DB) (s : HubState) (es fs : List SysEvent) :
    sysRun unmarshal marshal db s (es ++ fs) =
      sysRun unmarshal marshal db (sysRun unmarshal marshal db s es) fs := by
  unfold sysRun
  rw [List.foldl_append]

/-- After `register alice`, `n = 256` broadcasts that her stalled writer does
not drain, and then her snapshot send: the buffer is full, so the snapshot
goroutine closes her queue, and she is still in her room. -/
theorem sysRun_fill_snapshot (n : Nat) (hn : n = sendCap) :
    (sysRun exampleUnmarshal syncMarshal exampleDB NewHub
      ((HubEvent.register alice :: List.replicate n (HubEvent.broadcast cursorBytes)).map
        SysEvent.hub ++ [.snapshot alice false])).panicked = none ∧
    (sysRun exampleUnmarshal syncMarshal exampleDB NewHub
      ((HubEvent.register alice :: List.replicate n (HubEvent.broadcast cursorBytes)).map
        SysEvent.hub ++ [.snapshot alice false])).clients (str "1") = some [alice] ∧
    ((sysRun exampleUnmarshal syncMarshal exampleDB NewHub
      ((HubEvent.register alice :: List.replicate n (HubEvent.broadcast cursorBytes)).map
        SysEvent.hub ++ [.snapshot alice false])).send alice).closed = true := by
  obtain ⟨i1, i2, i3⟩ := hubRun_fill n (le_of_eq hn)
  have hrun : sysRun exampleUnmarshal syncMarshal exampleDB NewHub
      ((HubEvent.register alice :: List.replicate n (HubEvent.broadcast cursorBytes)).map
        SysEvent.hub ++ [.snapshot alice false]) =
      sendCurrentContent syncMarshal exampleDB false (hubRun exampleUnmarshal NewHub
        (.register alice :: List.replicate n (.broadcast cursorBytes))) alice := by
    rw [sysRun_append, sysRun_map_hub]
    rfl
  have hk : parseUint32 alice.noteID = some 1 := by decide
  have hnote : exampleDB.notes 1 = some ⟨str "abc", 5⟩ := by decide
  have hdata : syncMarshal
      { Typ := str "sync", NoteID := alice.noteID, UserID := 0, Operation := none,
        Content := str "abc", Version := 5, Data := [] } = some syncBytes := by decide
  have hfull : ¬ n < sendCap := by omega
  rw [hrun]
  unfold sendCurrentContent
  simp [i1, i2, i3, hk, hnote, hdata, hfull]

/-- A member with a closed queue: a broadcast to its room panics, and so does
its unregister. -/
theorem closed_member_panics (t : HubState) (h1 : t.panicked = none)
    (h2 : t.clients (str "1") = some [alice]) (h3 : (t.send alice).closed = true) :
    (sysRun exampleUnmarshal syncMarshal exampleDB t
      [.hub (.broadcast cursorBytes)]).panicked = some .sendOnClosed ∧
    (sysRun exampleUnmarshal syncMarshal exampleDB t
      [.hub (.unregister alice)]).panicked = some .closeOfClosed := by
  have hraw : exampleUnmarshal cursorBytes = some cursorMsg := by decide
  have hid : cursorMsg.NoteID = str "1" := by decide
  have hal : alice.noteID = str "1" := by decide
  constructor
  · show (broadcast exampleUnmarshal t cursorBytes).panicked = _
    unfold broadcast
    simp [h1, hraw, hid, h2, deliver, h3]
  · show (unregister t alice).panicked = _
    unfold unregister
    simp [h1, hal, h2, h3]

/-- C15, at the failing trace. `alice` registers for note `1`; 256 envelopes
are broadcast to the room while her writer is stalled; then her snapshot
goroutine finds the buffer full and runs `close(client.send)` without taking
her out of the room. She is a member with a closed queue: the next broadcast
to the room sends on the closed channel, and an unregister closes it a second
time; either panics. -/
theorem snapshot_closes_member_queue :
    (sysRun exampleUnmarshal syncMarshal exampleDB NewHub
      ((HubEvent.register alice :: List.replicate 256 (HubEvent.broadcast cursorBytes)).map
        SysEvent.hub ++ [.snapshot alice false])).panicked = none ∧
    inRoom (sysRun exampleUnmarshal syncMarshal exampleDB NewHub
      ((HubEvent.register alice :: List.replicate 256 (HubEvent.broadcast cursorBytes)).map
        SysEvent.hub ++ [.snapshot alice false])) (str "1") alice ∧
    ((sysRun exampleUnmarshal syncMarshal exampleDB NewHub
      ((HubEvent.register alice :: List.replicate 256 (HubEvent.broadcast cursorBytes)).map
        SysEvent.hub ++ [.snapshot alice false])).send alice).closed = true ∧
    (sysRun exampleUnmarshal syncMarshal exampleDB NewHub
      (((HubEvent.register alice :: List.replicate 256 (HubEvent.broadcast cursorBytes)).map
        SysEvent.hub ++ [.snapshot alice false]) ++
          [.hub (.broadcast cursorBytes)])).panicked = some .sendOnClosed ∧
    (sysRun exampleUnmarshal syncMarshal exampleDB NewHub
      (((HubEvent.register alice :: List.replicate 256 (HubEvent.broadcast cursorBytes)).map
        SysEvent.hub ++ [.snapshot alice false]) ++
          [.hub (.unregister alice)])).panicked = some .closeOfClosed := by
  obtain ⟨h1, h2, h3⟩ := sysRun_fill_snapshot 256 rfl
  obtain ⟨p1, p2⟩ := closed_member_panics _ h1 h2 h3
  refine ⟨h1, ⟨[alice], h2, by decide⟩, h3, ?_, ?_⟩
  · rw [sysRun_append]; exact p1
  · rw [sysRun_append]; exact p2

/-! ## Broadcast and unregister on a member whose queue the snapshot closed -/

/-- A broadcast touches no channel of a client outside the room it goes to. -/
theorem broadcast_send_of_not_member (unmarshal : GoString → Option Message) (s : HubState)
    (raw : GoString) (c : Client)
    (h : ∀ msg room, unmarshal raw = some msg → s.clients msg.NoteID = some room → c ∉ room) :
    (broadcast unmarshal s raw).send c = s.send c := by
  unfold broadcast
  by_cases hp : s.panicked.isSome = true
  · rw [if_pos hp]
  · rw [if_neg hp]
    cases hm : unmarshal raw with
    | none => rfl
    | some msg =>
      cases hr : s.clients msg.NoteID with
      | none => simp only [hr]
      | some room =>
        simp only [hr]
        exact foldl_deliver_send_of_not_mem _ _ c room s (h msg room hm hr)

/-- While `alice`'s queue fills, no other queue is touched. -/
theorem hubRun_fill_others (n : Nat) (hn : n ≤ sendCap) (c : Client) (hc : c ≠ alice) :
    (hubRun exampleUnmarshal NewHub
        (.register alice :: List.replicate n (.broadcast cursorBytes))).send c =
      { buf := [], closed := false } := by
  induction n with
  | zero => rfl
  | succ n ih =>
    obtain ⟨-, i2, -⟩ := hubRun_fill n (Nat.le_of_succ_le hn)
    have hrun : hubRun exampleUnmarshal NewHub
        (.register alice :: List.replicate (n + 1) (.broadcast cursorBytes)) =
        broadcast exampleUnmarshal (hubRun exampleUnmarshal NewHub
          (.register alice :: List.replicate n (.broadcast cursorBytes))) cursorBytes := by
      unfold hubRun
      rw [List.replicate_succ', ← List.cons_append, List.foldl_append]
      rfl
    rw [hrun, broadcast_send_of_not_member, ih (Nat.le_of_succ_le hn)]
    intro msg room hm hr
    have hmsg : msg = cursorMsg := by
      have : exampleUnmarshal cursorBytes = some cursorMsg := by decide
      rw [this] at hm
      exact (Option.some.inj hm).symm
    subst hmsg
    have hroom : room = [alice] := by
      have hid : cursorMsg.NoteID = str "1" := by decide
      rw [hid, i2] at hr
      exact (Option.some.inj hr).symm
    subst hroom
    simpa using hc

/-- The snapshot send of `alice` touches no other queue. -/
theorem sysRun_fill_snapshot_others (n : Nat) (hn : n = sendCap) (c : Client)
    (hc : c ≠ alice) :
    (sysRun exampleUnmarshal syncMarshal exampleDB NewHub
      ((HubEvent.register alice :: List.replicate n (HubEvent.broadcast cursorBytes)).map
        SysEvent.hub ++ [.snapshot alice false])).send c = { buf := [], closed := false } ∧
    ((sysRun exampleUnmarshal syncMarshal exampleDB NewHub
      ((HubEvent.register alice :: List.replicate n (HubEvent.broadcast cursorBytes)).map
        SysEvent.hub ++ [.snapshot alice false])).send alice).buf =
      List.replicate n cursorBytes := by
  obtain ⟨i1, i2, i3⟩ := hubRun_fill n (le_of_eq hn)
  have io := hubRun_fill_others n (le_of_eq hn) c hc
  have hrun : sysRun exampleUnmarshal syncMarshal exampleDB NewHub
      ((HubEvent.register alice :: List.replicate n (HubEvent.broadcast cursorBytes)).map
        SysEvent.hub ++ [.snapshot alice false]) =
      sendCurrentContent syncMarshal exampleDB false (hubRun exampleUnmarshal NewHub
        (.register alice :: List.replicate n (.broadcast cursorBytes))) alice := by
    rw [sysRun_append, sysRun_map_hub]
    rfl
  have hk : parseUint32 alice.noteID = some 1 := by decide
  have hnote : exampleDB.notes 1 = some ⟨str "abc", 5⟩ := by decide
  have hdata : syncMarshal
      { Typ := str "sync", NoteID := alice.noteID, UserID := 0, Operation := none,
        Content := str "abc", Version := 5, Data := [] } = some syncBytes := by decide
  have hfull : ¬ n < sendCap := by omega
  rw [hrun]
  unfold sendCurrentContent
  constructor
  · simp [i1, i3, hk, hnote, hdata, hfull, Function.update_noteq hc, io]
  · simp [i1, i3, hk, hnote, hdata, hfull]

/-- From a state where `alice` is alone in the room of note `1` with a closed
queue: `bob` registers and an envelope is broadcast to the room. -/
theorem closed_member_broadcast (t : HubState) (h1 : t.panicked = none)
    (h2 : t.clients (str "1") = some [alice]) (h3 : (t.send alice).closed = true) :
    (sysRun exampleUnmarshal syncMarshal exampleDB t
      [.hub (.register bob), .hub (.broadcast cursorBytes)]).panicked = some .sendOnClosed ∧
    (sysRun exampleUnmarshal syncMarshal exampleDB t
      [.hub (.register bob), .hub (.broadcast cursorBytes)]).clients (str "1") =
        some [alice, bob] ∧
    (sysRun exampleUnmarshal syncMarshal exampleDB t
      [.hub (.register bob), .hub (.broadcast cursorBytes)]).send = t.send := by
  have hraw : exampleUnmarshal cursorBytes = some cursorMsg := by decide
  have hid : cursorMsg.NoteID = str "1" := by decide
  have hbob : bob.noteID = str "1" := by decide
  have hins : insertClient [alice] bob = [alice, bob] := by decide
  have hreg : register t bob =
      { t with clients := Function.update t.clients (str "1") (some [alice, bob]) } := by
    unfold register
    simp [h1, hbob, h2, hins]
  have hrun : sysRun exampleUnmarshal syncMarshal exampleDB t
      [.hub (.register bob), .hub (.broadcast cursorBytes)] =
      broadcast exampleUnmarshal (register t bob) cursorBytes := rfl
  have hp1 : (register t bob).panicked = none := by rw [hreg]; exact h1
  have hcl : (register t bob).clients cursorMsg.NoteID = some [alice, bob] := by
    rw [hreg, hid]; simp
  have hcl1 : (register t bob).clients (str "1") = some [alice, bob] := by
    rw [← hid]; exact hcl
  have hsend : (register t bob).send = t.send := by rw [hreg]
  rw [hrun]
  unfold broadcast
  simp [hp1, hraw, hcl, hcl1, hid, deliver, hsend, h3]

/-- From a state where `alice` is the only member of the room of note `1` and
her queue is closed: her unregister. -/
theorem closed_member_unregister (t : HubState) (h1 : t.panicked = none)
    (h2 : t.clients (str "1") = some [alice]) (h3 : (t.send alice).closed = true) :
    (unregister t alice).clients (str "1") = some [] ∧
    (unregister t alice).panicked = some .closeOfClosed := by
  have hal : alice.noteID = str "1" := by decide
  have hdel : deleteClient [alice] alice = [] := by decide
  unfold unregister
  simp [h1, hal, h2, h3, hdel]

/-- C7, at the failing trace. `alice` registers for note `1`, 256 envelopes
fill her queue while her writer is stalled, her snapshot goroutine closes the
full queue and leaves her in the room, and `bob` joins the room with an empty
queue. A broadcast to the room then sends on `alice`'s closed channel: the
worker panics, `alice` (queue full) is still in the room, and `bob` (queue
not full, visited after her) has nothing appended. -/
theorem broadcast_closed_slow_consumer :
    sendCap ≤ ((sysRun exampleUnmarshal syncMarshal exampleDB NewHub
      ((HubEvent.register alice :: List.replicate 256 (HubEvent.broadcast cursorBytes)).map
        SysEvent.hub ++ [.snapshot alice false])).send alice).buf.length ∧
    (sysRun exampleUnmarshal syncMarshal exampleDB NewHub
      (((HubEvent.register alice :: List.replicate 256 (HubEvent.broadcast cursorBytes)).map
        SysEvent.hub ++ [.snapshot alice false]) ++
          [.hub (.register bob), .hub (.broadcast cursorBytes)])).panicked =
      some .sendOnClosed ∧
    inRoom (sysRun exampleUnmarshal syncMarshal exampleDB NewHub
      (((HubEvent.register alice :: List.replicate 256 (HubEvent.broadcast cursorBytes)).map
        SysEvent.hub ++ [.snapshot alice false]) ++
          [.hub (.register bob), .hub (.broadcast cursorBytes)])) (str "1") alice ∧
    inRoom (sysRun exampleUnmarshal syncMarshal exampleDB NewHub
      (((HubEvent.register alice :: List.replicate 256 (HubEvent.broadcast cursorBytes)).map
        SysEvent.hub ++ [.snapshot alice false]) ++
          [.hub (.register bob), .hub (.broadcast cursorBytes)])) (str "1") bob ∧
    (sysRun exampleUnmarshal syncMarshal exampleDB NewHub
      (((HubEvent.register alice :: List.replicate 256 (HubEvent.broadcast cursorBytes)).map
        SysEvent.hub ++ [.snapshot alice false]) ++
          [.hub (.register bob), .hub (.broadcast cursorBytes)])).send bob =
      { buf := [], closed := false } := by
  obtain ⟨h1, h2, h3⟩ := sysRun_fill_snapshot 256 rfl
  obtain ⟨o1, o2⟩ := sysRun_fill_snapshot_others 256 rfl bob (by decide)
  obtain ⟨p1, p2, p3⟩ := closed_member_broadcast _ h1 h2 h3
  refine ⟨?_, ?_, ?_, ?_, ?_⟩
  · rw [o2, List.length_replicate]; decide
  · rw [sysRun_append]; exact p1
  · rw [sysRun_append]; exact ⟨_, p2, by decide⟩
  · rw [sysRun_append]; exact ⟨_, p2, by decide⟩
  · rw [sysRun_append, p3]; exact o1

/-- C9, at the failing trace. `alice` registers for note `1`, 256 envelopes
fill her queue while her writer is stalled, and her snapshot goroutine closes
the full queue: she is the only member of the room. Her unregister deletes
her from the room and panics on the second `close`, before the emptied room
is deleted: the room map still has an entry for note `1`. -/
theorem unregister_closed_last_member :
    (sysRun exampleUnmarshal syncMarshal exampleDB NewHub
      ((HubEvent.register alice :: List.replicate 256 (HubEvent.broadcast cursorBytes)).map
        SysEvent.hub ++ [.snapshot alice false])).clients (str "1") = some [alice] ∧
    (sysRun exampleUnmarshal syncMarshal exampleDB NewHub
      ((HubEvent.register alice :: List.replicate 256 (HubEvent.broadcast cursorBytes)).map
        SysEvent.hub ++ [.snapshot alice false])).panicked = none ∧
    (unregister (sysRun exampleUnmarshal syncMarshal exampleDB NewHub
      ((HubEvent.register alice :: List.replicate 256 (HubEvent.broadcast cursorBytes)).map
        SysEvent.hub ++ [.snapshot alice false])) alice).clients (str "1") = some [] ∧
    (unregister (sysRun exampleUnmarshal syncMarshal exampleDB NewHub
      ((HubEvent.register alice :: List.replicate 256 (HubEvent.broadcast cursorBytes)).map
        SysEvent.hub ++ [.snapshot alice false])) alice).panicked = some .closeOfClosed := by
  obtain ⟨h1, h2, h3⟩ := sysRun_fill_snapshot 256 rfl
  obtain ⟨p1, p2⟩ := closed_member_unregister _ h1 h2 h3
  exact ⟨h2, h1, p1, p2⟩

/-! ## The snapshot goroutine of a registration -/

/-- A turn of a `writePump` that writes its frame moves the head of the queue
to the connection: the stream of the client is as before. -/
theorem writePump_stream (w : World) (c c1 : Client) :
    stream (writePump w c false) c1 = stream w c1 := by
  unfold writePump stream
  split
  · rfl
  · split
    · rfl
    · cases hb : (w.hub.send c).buf with
      | nil => simp only; split <;> rfl
      | cons m rest =>
        by_cases hc : c1 = c
        · subst hc; simp [hb]
        · simp [Function.update_noteq hc]

end CloudNotes
